import Mathlib

/-!
Verification of the bambu-monitor state pipeline against its specification.

The definitions below are shallow embeddings of the Python sources:
JSON payload values, the orchestrator's `_deep_merge`, the print-again
derivation, the stream-service versioning, the skip-objects request checks,
the print/AMS parsers and the password-verification helpers.
-/

set_option maxHeartbeats 1000000

namespace BambuMonitor

/-- JSON-like payload values, as carried by MQTT reports
(`Dict[str, Any]` in the source). Objects keep insertion order,
like Python dicts. -/
inductive JVal where
  | null : JVal
  | bool : Bool → JVal
  | num : Int → JVal
  | str : String → JVal
  | arr : List JVal → JVal
  | obj : List (String × JVal) → JVal
  deriving Repr

abbrev JFields := List (String × JVal)

mutual

/-- Structural (constructor-level) equality test on payload values. -/
def JVal.beq : JVal → JVal → Bool
  | .null, .null => true
  | .bool a, .bool b => a == b
  | .num a, .num b => a == b
  | .str a, .str b => a == b
  | .arr a, .arr b => JVal.beqList a b
  | .obj a, .obj b => JVal.beqFields a b
  | _, _ => false

def JVal.beqList : List JVal → List JVal → Bool
  | [], [] => true
  | x :: xs, y :: ys => JVal.beq x y && JVal.beqList xs ys
  | _, _ => false

def JVal.beqFields : List (String × JVal) → List (String × JVal) → Bool
  | [], [] => true
  | (k, v) :: xs, (k', v') :: ys => k == k' && JVal.beq v v' && JVal.beqFields xs ys
  | _, _ => false

end

mutual

theorem JVal.beq_iff : ∀ a b : JVal, JVal.beq a b = true ↔ a = b
  | .null, b => by cases b <;> simp [JVal.beq]
  | .bool x, b => by cases b <;> simp [JVal.beq]
  | .num x, b => by cases b <;> simp [JVal.beq]
  | .str x, b => by cases b <;> simp [JVal.beq]
  | .arr xs, b => by
      cases b <;> simp [JVal.beq]
      exact JVal.beqList_iff xs _
  | .obj xs, b => by
      cases b <;> simp [JVal.beq]
      exact JVal.beqFields_iff xs _

theorem JVal.beqList_iff : ∀ a b : List JVal, JVal.beqList a b = true ↔ a = b
  | [], b => by cases b <;> simp [JVal.beqList]
  | x :: xs, b => by
      cases b with
      | nil => simp [JVal.beqList]
      | cons y ys =>
          simp [JVal.beqList, Bool.and_eq_true, JVal.beq_iff x y, JVal.beqList_iff xs ys]

theorem JVal.beqFields_iff : ∀ a b : List (String × JVal), JVal.beqFields a b = true ↔ a = b
  | [], b => by cases b <;> simp [JVal.beqFields]
  | (k, v) :: xs, b => by
      cases b with
      | nil => simp [JVal.beqFields]
      | cons p ys =>
          obtain ⟨k', v'⟩ := p
          simp [JVal.beqFields, Bool.and_eq_true, JVal.beq_iff v v',
            JVal.beqFields_iff xs ys, and_assoc]

end

instance : DecidableEq JVal := fun a b =>
  decidable_of_iff (JVal.beq a b = true) (JVal.beq_iff a b)

/-! ## Deep merge (`StateOrchestrator._deep_merge`) -/

/-- Whitespace characters recognised by Python's `str.strip()` (ASCII range). -/
def pyIsSpace (c : Char) : Bool :=
  c = ' ' || c = '\t' || c = '\n' || c = '\r' || c = '\x0b' || c = '\x0c'

/-- Sentinel test of `_deep_merge`: `value in (None, "", "?", "0/0")` or a
whitespace-only string (`isinstance(value, str) and not value.strip()`). -/
def isSentinel : JVal → Bool
  | .null => true
  | .str s => s = "" || s = "?" || s = "0/0" || s.toList.all pyIsSpace
  | _ => false

/-- `dict.get(key)`: first binding for `key`, if any. -/
def lookupKey : JFields → String → Option JVal
  | [], _ => none
  | (k', v) :: rest, k => if k' = k then some v else lookupKey rest k

/-- `result[key] = value` on an insertion-ordered dict: replace in place,
else append. -/
def setKey : JFields → String → JVal → JFields
  | [], k, v => [(k, v)]
  | (k', v') :: rest, k, v =>
      if k' = k then (k', v) :: rest else (k', v') :: setKey rest k v

mutual

/-- `StateOrchestrator._deep_merge(master, new)`: fold the payload entries
into a copy of the master. -/
def deepMerge : JFields → JFields → JFields
  | master, [] => master
  | master, (k, v) :: rest => deepMerge (mergeStep master k v) rest
termination_by _ new => sizeOf new

/-- One iteration of the `_deep_merge` loop body for entry `(k, v)`:
recursive merge when both sides are dicts, skip sentinels, otherwise set. -/
def mergeStep (master : JFields) (k : String) (v : JVal) : JFields :=
  match v, lookupKey master k with
  | .obj nf, some (.obj mf) => setKey master k (.obj (deepMerge mf nf))
  | _, _ => if isSentinel v then master else setKey master k v
termination_by sizeOf v

end

/-- Value-level effect of one merged key: `mergeVal (master.get k) (new.get k)`
describes `(deepMerge master new).get k` (proved below). -/
def mergeVal : Option JVal → Option JVal → Option JVal
  | mv, none => mv
  | mv, some v =>
      match v, mv with
      | .obj nf, some (.obj mf) => some (.obj (deepMerge mf nf))
      | _, _ => if isSentinel v then mv else some v

@[simp] theorem deepMerge_nil (m : JFields) : deepMerge m [] = m := by
  simp [deepMerge]

@[simp] theorem deepMerge_cons (m rest : JFields) (k : String) (v : JVal) :
    deepMerge m ((k, v) :: rest) = deepMerge (mergeStep m k v) rest := by
  simp [deepMerge]

@[simp] theorem lookupKey_setKey_self (m : JFields) (k : String) (v : JVal) :
    lookupKey (setKey m k v) k = some v := by
  induction m with
  | nil => simp [setKey, lookupKey]
  | cons p rest ih =>
      obtain ⟨k', v'⟩ := p
      by_cases h : k' = k <;> simp [setKey, lookupKey, h, ih]

theorem lookupKey_setKey_ne (m : JFields) {k' k : String} (v : JVal) (h : k' ≠ k) :
    lookupKey (setKey m k' v) k = lookupKey m k := by
  induction m with
  | nil => simp [setKey, lookupKey, h]
  | cons p rest ih =>
      obtain ⟨k₀, v₀⟩ := p
      by_cases h0 : k₀ = k' <;> simp [setKey, lookupKey, h0, h, ih]

theorem lookupKey_mergeStep_self (m : JFields) (k : String) (v : JVal) :
    lookupKey (mergeStep m k v) k = mergeVal (lookupKey m k) (some v) := by
  rcases hm : lookupKey m k with _ | (_ | b' | n' | s' | xs' | mf) <;>
    rcases v with _ | b | n | s | xs | nf <;>
    simp only [mergeStep.eq_def, hm, mergeVal] <;>
    first
      | (split <;> simp [hm])
      | simp

theorem lookupKey_mergeStep_ne (m : JFields) {k' k : String} (v : JVal) (h : k' ≠ k) :
    lookupKey (mergeStep m k' v) k = lookupKey m k := by
  rcases hm : lookupKey m k' with _ | (_ | b' | n' | s' | xs' | mf) <;>
    rcases v with _ | b | n | s | xs | nf <;>
    simp only [mergeStep.eq_def, hm] <;>
    first
      | (split <;> first | rfl | rw [lookupKey_setKey_ne _ _ h])
      | rw [lookupKey_setKey_ne _ _ h]
      | rfl

/-! ## Well-formed payloads (Python dicts have distinct keys) -/

mutual

/-- Well-formed payload value: every object inside has pairwise distinct
keys, as Python dicts guarantee. -/
def JVal.wf : JVal → Bool
  | .obj fs => fieldsWf fs
  | _ => true
termination_by v => sizeOf v

/-- Well-formed field list: distinct keys, well-formed values. -/
def fieldsWf : JFields → Bool
  | [] => true
  | (k, v) :: rest => rest.all (fun p => p.1 != k) && JVal.wf v && fieldsWf rest
termination_by fs => sizeOf fs

end

theorem fieldsWf_cons {k : String} {v : JVal} {rest : JFields}
    (h : fieldsWf ((k, v) :: rest) = true) :
    rest.all (fun p => p.1 != k) = true ∧ JVal.wf v = true ∧ fieldsWf rest = true := by
  rw [fieldsWf] at h
  simpa [Bool.and_eq_true, and_assoc] using h

theorem lookupKey_eq_none_of_all_ne {l : JFields} {k : String}
    (h : l.all (fun p => p.1 != k) = true) : lookupKey l k = none := by
  induction l with
  | nil => rfl
  | cons p rest ih =>
      obtain ⟨k', v⟩ := p
      simp only [List.all_cons, Bool.and_eq_true, bne_iff_ne, ne_eq] at h
      simp [lookupKey, h.1, ih h.2]

theorem fieldsWf_lookup : ∀ {l : JFields} {k : String} {v : JVal},
    fieldsWf l = true → lookupKey l k = some v → JVal.wf v = true := by
  intro l
  induction l with
  | nil => intro k v _ h; simp [lookupKey] at h
  | cons p rest ih =>
      intro k v hwf hl
      obtain ⟨k', v'⟩ := p
      obtain ⟨_, hv, hrest⟩ := fieldsWf_cons hwf
      rw [lookupKey] at hl
      split at hl
      · cases hl; exact hv
      · exact ih hrest hl

/-- Lookup characterization of the deep merge: field-wise it acts as
`mergeVal`, provided the payload has distinct keys. -/
theorem lookupKey_deepMerge : ∀ (p m : JFields) (k : String), fieldsWf p = true →
    lookupKey (deepMerge m p) k = mergeVal (lookupKey m k) (lookupKey p k) := by
  intro p
  induction p with
  | nil => intro m k _; simp [mergeVal, lookupKey]
  | cons q rest ih =>
      intro m k hp
      obtain ⟨k', v⟩ := q
      obtain ⟨hall, hv, hrest⟩ := fieldsWf_cons hp
      rw [deepMerge_cons, ih (mergeStep m k' v) k hrest]
      by_cases hk : k' = k
      · subst hk
        have hnone : lookupKey rest k' = none := lookupKey_eq_none_of_all_ne hall
        rw [hnone, lookupKey_mergeStep_self]
        simp [mergeVal, lookupKey]
      · rw [lookupKey_mergeStep_ne m v hk]
        simp [lookupKey, hk]

theorem fieldsWf_setKey : ∀ (m : JFields) (k : String) (v : JVal),
    fieldsWf m = true → JVal.wf v = true → fieldsWf (setKey m k v) = true := by
  intro m k v hm hv
  induction m with
  | nil => simp [setKey, fieldsWf, hv]
  | cons p rest ih =>
      obtain ⟨k0, v0⟩ := p
      obtain ⟨hall, hv0, hrest⟩ := fieldsWf_cons hm
      rw [setKey]
      split
      · next heq =>
          rw [fieldsWf]
          simp only [Bool.and_eq_true]
          exact ⟨⟨hall, hv⟩, hrest⟩
      · next hne =>
          rw [fieldsWf]
          simp only [Bool.and_eq_true]
          refine ⟨⟨?_, hv0⟩, ih hrest⟩
          have hsub : ∀ (l : JFields), l.all (fun p => p.1 != k0) = true →
              (setKey l k v).all (fun p => p.1 != k0) = true := by
            intro l
            induction l with
            | nil =>
                intro _
                simp only [setKey, List.all_cons, List.all_nil, Bool.and_true, bne_iff_ne, ne_eq]
                intro hkk
                exact hne (hkk ▸ rfl)
            | cons q restl ihl =>
                intro hl
                obtain ⟨k1, v1⟩ := q
                simp only [List.all_cons, Bool.and_eq_true] at hl
                rw [setKey]
                split
                · simp only [List.all_cons, Bool.and_eq_true]
                  exact ⟨hl.1, hl.2⟩
                · simp only [List.all_cons, Bool.and_eq_true]
                  exact ⟨hl.1, ihl hl.2⟩
          exact hsub rest hall

/-- The deep merge of well-formed field lists is well-formed. -/
theorem deepMerge_wf : ∀ (p m : JFields), fieldsWf m = true → fieldsWf p = true →
    fieldsWf (deepMerge m p) = true
  | [], m, hm, _ => by simpa using hm
  | (k, v) :: rest, m, hm, hp => by
      obtain ⟨hall, hv, hrest⟩ := fieldsWf_cons hp
      have hstep : fieldsWf (mergeStep m k v) = true := by
        rw [mergeStep.eq_def]
        rcases hv2 : v with _ | b | n | s | xs | nf
        case obj =>
          rcases hl : lookupKey m k with _ | (_ | b' | n' | s' | xs' | mf)
          case some.obj =>
            have hmf : fieldsWf mf = true := by
              have := fieldsWf_lookup hm hl
              simpa [JVal.wf] using this
            have hnf : fieldsWf nf = true := by simpa [hv2, JVal.wf] using hv
            refine fieldsWf_setKey m k _ hm ?_
            rw [JVal.wf]
            exact deepMerge_wf nf mf hmf hnf
          all_goals
            simp only
            split
            · exact hm
            · exact fieldsWf_setKey m k _ hm (by rw [hv2] at hv; exact hv)
        all_goals
          simp only
          split
          · exact hm
          · exact fieldsWf_setKey m k _ hm (by rw [hv2] at hv; exact hv)
      rw [deepMerge_cons]
      exact deepMerge_wf rest (mergeStep m k v) hstep hrest
termination_by p _ _ _ => sizeOf p


/-! ## Python equality on payload values -/

theorem sizeOf_lookupKey : ∀ {l : JFields} {k : String} {v : JVal},
    lookupKey l k = some v → sizeOf v < sizeOf l := by
  intro l
  induction l with
  | nil => intro k v h; simp [lookupKey] at h
  | cons p rest ih =>
      intro k v h
      obtain ⟨k0, v0⟩ := p
      rw [lookupKey] at h
      split at h
      · cases h
        simp only [List.cons.sizeOf_spec, Prod.mk.sizeOf_spec]
        omega
      · have := ih h
        simp only [List.cons.sizeOf_spec, Prod.mk.sizeOf_spec]
        omega

theorem beqComm {α : Type} [BEq α] [LawfulBEq α] (x y : α) : (x == y) = (y == x) := by
  by_cases h : x = y
  · subst h; rfl
  · rw [beq_eq_false_iff_ne.mpr h, beq_eq_false_iff_ne.mpr (Ne.symm h)]

mutual

/-- Python `==` on payload values: dict comparison ignores key order. -/
def pyEq : JVal → JVal → Bool
  | .null, .null => true
  | .bool a, .bool b => a == b
  | .num a, .num b => a == b
  | .str a, .str b => a == b
  | .arr a, .arr b => pyEqList a b
  | .obj a, .obj b => pyEqSub a a b && pyEqSub b b a
  | _, _ => false
termination_by a b => (sizeOf a + sizeOf b, 0)

def pyEqList : List JVal → List JVal → Bool
  | [], [] => true
  | x :: xs, y :: ys => pyEq x y && pyEqList xs ys
  | _, _ => false
termination_by xs ys => (sizeOf xs + sizeOf ys, 0)

/-- Key-wise comparison: both dicts hold `==` values at key `k`. -/
def pyEqAt (orig b : JFields) (k : String) : Bool :=
  match h1 : lookupKey orig k, h2 : lookupKey b k with
  | some v, some w => pyEq v w
  | _, _ => false
termination_by (sizeOf orig + sizeOf b, 1)
decreasing_by
  have hv := sizeOf_lookupKey h1
  have hw := sizeOf_lookupKey h2
  simp_wf
  omega

/-- One-sided dict inclusion over the listed entries. -/
def pyEqSub : JFields → JFields → JFields → Bool
  | _, [], _ => true
  | orig, (k, _) :: rest, b => pyEqAt orig b k && pyEqSub orig rest b
termination_by orig entries b => (sizeOf orig + sizeOf b, 2 + sizeOf entries)

end

/-- Python `==` lifted to optional values (both absent counts as equal). -/
def pyEqOpt : Option JVal → Option JVal → Bool
  | none, none => true
  | some v, some w => pyEq v w
  | _, _ => false

@[simp] theorem pyEq_null_null : pyEq .null .null = true := by rw [pyEq.eq_def]

@[simp] theorem pyEq_bool_bool (a b : Bool) : pyEq (.bool a) (.bool b) = (a == b) := by
  rw [pyEq.eq_def]

@[simp] theorem pyEq_num_num (a b : Int) : pyEq (.num a) (.num b) = (a == b) := by
  rw [pyEq.eq_def]

@[simp] theorem pyEq_str_str (a b : String) : pyEq (.str a) (.str b) = (a == b) := by
  rw [pyEq.eq_def]

@[simp] theorem pyEq_arr_arr (a b : List JVal) : pyEq (.arr a) (.arr b) = pyEqList a b := by
  rw [pyEq.eq_def]

@[simp] theorem pyEq_obj_obj (a b : JFields) :
    pyEq (.obj a) (.obj b) = (pyEqSub a a b && pyEqSub b b a) := by
  rw [pyEq.eq_def]

@[simp] theorem pyEqSub_nil (orig b : JFields) : pyEqSub orig [] b = true := by
  rw [pyEqSub.eq_def]

@[simp] theorem pyEqSub_cons (orig b rest : JFields) (k : String) (v : JVal) :
    pyEqSub orig ((k, v) :: rest) b = (pyEqAt orig b k && pyEqSub orig rest b) := by
  rw [pyEqSub.eq_def]

theorem pyEqAt_some_some {orig b : JFields} {k : String} {v w : JVal}
    (h1 : lookupKey orig k = some v) (h2 : lookupKey b k = some w) :
    pyEqAt orig b k = pyEq v w := by
  rw [pyEqAt.eq_def]
  split
  · next v' w' hv hw =>
      rw [h1] at hv
      rw [h2] at hw
      cases hv
      cases hw
      rfl
  · next h =>
      exact (h v w h1 h2).elim

theorem lookupKey_isSome_of_mem : ∀ {l : JFields} {k : String} {v : JVal},
    (k, v) ∈ l → (lookupKey l k).isSome := by
  intro l
  induction l with
  | nil => intro k v h; simp at h
  | cons p rest ih =>
      intro k v h
      obtain ⟨k0, v0⟩ := p
      rw [lookupKey]
      rcases List.mem_cons.mp h with h0 | h0
      · cases h0; simp
      · split
        · simp
        · exact ih h0

mutual

theorem pyEq_symm : ∀ (a b : JVal), pyEq a b = pyEq b a
  | a, b => by
      conv_lhs => rw [pyEq.eq_def]
      conv_rhs => rw [pyEq.eq_def]
      rcases a with _ | ba | na | sa | xsa | fsa <;>
        rcases b with _ | bb | nb | sb | xsb | fsb <;>
        first
          | rfl
          | (exact Bool.and_comm _ _)
          | (exact pyEqList_symm xsa xsb)
          | (exact beqComm _ _)
termination_by a b => (sizeOf a + sizeOf b, 0)

theorem pyEqList_symm : ∀ (xs ys : List JVal), pyEqList xs ys = pyEqList ys xs
  | xs, ys => by
      conv_lhs => rw [pyEqList.eq_def]
      conv_rhs => rw [pyEqList.eq_def]
      rcases xs with _ | ⟨x, xs⟩ <;> rcases ys with _ | ⟨y, ys⟩ <;>
        first
          | rfl
          | (show (pyEq x y && pyEqList xs ys) = (pyEq y x && pyEqList ys xs)
             rw [pyEq_symm x y, pyEqList_symm xs ys])
termination_by xs ys => (sizeOf xs + sizeOf ys, 0)

end

mutual

theorem pyEq_refl : ∀ (v : JVal), pyEq v v = true
  | .null => by simp
  | .bool b => by simp
  | .num n => by simp
  | .str s => by simp
  | .arr xs => by
      rw [pyEq_arr_arr]
      exact pyEqList_refl xs
  | .obj fs => by
      rw [pyEq_obj_obj]
      rw [pyEqSub_refl fs fs (fun p hp => lookupKey_isSome_of_mem hp)]
      rfl
termination_by v => (2 * sizeOf v, 0)

theorem pyEqList_refl : ∀ (xs : List JVal), pyEqList xs xs = true
  | [] => by rw [pyEqList.eq_def]
  | x :: xs => by
      conv_lhs => rw [pyEqList.eq_def]
      show (pyEq x x && pyEqList xs xs) = true
      rw [pyEq_refl x, pyEqList_refl xs]
      rfl
termination_by xs => (2 * sizeOf xs, 0)

theorem pyEqSub_refl : ∀ (orig entries : JFields),
    (∀ p ∈ entries, (lookupKey orig p.1).isSome) → pyEqSub orig entries orig = true
  | _, [], _ => by simp
  | orig, (k, v) :: rest, h => by
      rw [pyEqSub_cons]
      have hk : (lookupKey orig k).isSome := h (k, v) (List.mem_cons_self _ _)
      obtain ⟨w, hw⟩ := Option.isSome_iff_exists.mp hk
      rw [pyEqAt_some_some hw hw, pyEq_refl w,
        pyEqSub_refl orig rest (fun p hp => h p (List.mem_cons_of_mem _ hp))]
      rfl
termination_by orig entries _ => (2 * sizeOf orig, 2 + sizeOf entries)
decreasing_by
  all_goals simp_wf
  all_goals first
    | omega
    | (have hv := sizeOf_lookupKey hw
       omega)

end

/-- Pointwise Python-equal lookups imply Python-equal dicts. -/
theorem pyEq_obj_of_pointwise {a b : JFields}
    (h : ∀ k, pyEqOpt (lookupKey a k) (lookupKey b k) = true) :
    pyEq (.obj a) (.obj b) = true := by
  rw [pyEq_obj_obj]
  have hsub : ∀ (entries o1 o2 : JFields),
      (∀ k, pyEqOpt (lookupKey o1 k) (lookupKey o2 k) = true) →
      (∀ p ∈ entries, (lookupKey o1 p.1).isSome) →
      pyEqSub o1 entries o2 = true := by
    intro entries
    induction entries with
    | nil => intro o1 o2 _ _; simp
    | cons q rest ih =>
        intro o1 o2 hpt hmem
        obtain ⟨k, v⟩ := q
        rw [pyEqSub_cons]
        obtain ⟨w, hw⟩ := Option.isSome_iff_exists.mp (hmem (k, v) (List.mem_cons_self _ _))
        have hpk := hpt k
        rw [hw] at hpk
        rcases h2 : lookupKey o2 k with _ | u
        · rw [h2] at hpk; simp [pyEqOpt] at hpk
        · rw [h2] at hpk
          simp only [pyEqOpt] at hpk
          rw [pyEqAt_some_some hw h2, hpk,
            ih o1 o2 hpt (fun p hp => hmem p (List.mem_cons_of_mem _ hp))]
          rfl
  have h1 : pyEqSub a a b = true :=
    hsub a a b h (fun p hp => lookupKey_isSome_of_mem hp)
  have hsymm : ∀ k, pyEqOpt (lookupKey b k) (lookupKey a k) = true := by
    intro k
    have hk := h k
    rcases ha : lookupKey a k with _ | v <;> rcases hb : lookupKey b k with _ | w <;>
      rw [ha, hb] at hk <;> simp [pyEqOpt] at hk ⊢
    rw [pyEq_symm w v]
    exact hk
  have h2 : pyEqSub b b a = true :=
    hsub b b a hsymm (fun p hp => lookupKey_isSome_of_mem hp)
  rw [h1, h2]
  rfl

theorem pyEqOpt_refl : ∀ (x : Option JVal), pyEqOpt x x = true
  | none => rfl
  | some v => by simpa [pyEqOpt] using pyEq_refl v

/-! ## Associativity of the deep merge -/

/-- Well-formedness of an optional value. -/
def wfOpt : Option JVal → Bool
  | none => true
  | some v => JVal.wf v

theorem wfOpt_lookup {l : JFields} (hl : fieldsWf l = true) (k : String) :
    wfOpt (lookupKey l k) = true := by
  rcases h : lookupKey l k with _ | v
  · rfl
  · simpa [wfOpt] using fieldsWf_lookup hl h

mutual

/-- The two association orders of the merge agree at this key unless the
master holds a dict, the first payload a non-sentinel scalar, and the
second payload a dict (recursively below aligned dicts). -/
def condVal : Option JVal → Option JVal → Option JVal → Bool
  | some (.obj mM), some v1, some (.obj d2) =>
      match v1 with
      | .obj d1 => condObj mM d1 d2
      | _ => isSentinel v1
  | _, _, _ => true
termination_by _ _ v2o => sizeOf v2o

/-- `condVal` at every key of the second payload. -/
def condObj : JFields → JFields → JFields → Bool
  | _, _, [] => true
  | m, p1, (k, v2) :: rest =>
      condVal (lookupKey m k) (lookupKey p1 k) (some v2) && condObj m p1 rest
termination_by _ _ p2 => sizeOf p2

end

theorem condVal_none3 (mv v1o : Option JVal) : condVal mv v1o none = true := by
  rw [condVal.eq_def]
  rcases mv with _ | (_ | _ | _ | _ | _ | mM) <;> rcases v1o with _ | v1 <;> rfl

theorem condVal_objs (mM d1 d2 : JFields) :
    condVal (some (.obj mM)) (some (.obj d1)) (some (.obj d2)) = condObj mM d1 d2 := by
  rw [condVal.eq_def]

@[simp] theorem condObj_nil (m p1 : JFields) : condObj m p1 [] = true := by
  rw [condObj.eq_def]

@[simp] theorem condObj_cons (m p1 rest : JFields) (k : String) (v2 : JVal) :
    condObj m p1 ((k, v2) :: rest) =
      (condVal (lookupKey m k) (lookupKey p1 k) (some v2) && condObj m p1 rest) := by
  rw [condObj.eq_def]

theorem condObj_lookup {m p1 p2 : JFields} (hwf : fieldsWf p2 = true)
    (hc : condObj m p1 p2 = true) (k : String) :
    condVal (lookupKey m k) (lookupKey p1 k) (lookupKey p2 k) = true := by
  induction p2 with
  | nil => simpa [lookupKey] using condVal_none3 (lookupKey m k) (lookupKey p1 k)
  | cons q rest ih =>
      obtain ⟨k', v2⟩ := q
      obtain ⟨_, _, hrest⟩ := fieldsWf_cons hwf
      rw [condObj_cons, Bool.and_eq_true] at hc
      rw [lookupKey]
      split
      · next heq => subst heq; exact hc.1
      · exact ih hrest hc.2

theorem mergeVal_none2 (X : Option JVal) : mergeVal X none = X := rfl

theorem mergeVal_some_nonobj (X : Option JVal) (v : JVal) (hv : ∀ fs, v ≠ JVal.obj fs) :
    mergeVal X (some v) = if isSentinel v then X else some v := by
  rcases v with _ | b | n | s | xs | fs
  case obj => exact absurd rfl (hv fs)
  all_goals rcases X with _ | (_ | _ | _ | _ | _ | mf) <;> rfl

theorem mergeVal_obj_obj (mf nf : JFields) :
    mergeVal (some (.obj mf)) (some (.obj nf)) = some (.obj (deepMerge mf nf)) := rfl

theorem mergeVal_obj_other (X : Option JVal) (nf : JFields)
    (h : ∀ mf, X ≠ some (JVal.obj mf)) :
    mergeVal X (some (.obj nf)) = some (.obj nf) := by
  rcases X with _ | (_ | _ | _ | _ | _ | mf)
  case some.obj => exact absurd rfl (h mf)
  all_goals rfl

mutual

/-- Value-level associativity of the merge under `condVal`. -/
theorem mergeVal_assoc : ∀ (v2o v1o mv : Option JVal),
    wfOpt mv = true → wfOpt v1o = true → wfOpt v2o = true →
    condVal mv v1o v2o = true →
    pyEqOpt (mergeVal (mergeVal mv v1o) v2o) (mergeVal mv (mergeVal v1o v2o)) = true
  | none, v1o, mv, _, _, _, _ => by
      rw [mergeVal_none2, mergeVal_none2]
      exact pyEqOpt_refl _
  | some .null, _, _, _, _, _, _ => pyEqOpt_refl _
  | some (.bool b), _, _, _, _, _, _ => pyEqOpt_refl _
  | some (.num n), _, _, _, _, _, _ => pyEqOpt_refl _
  | some (.arr xs), _, _, _, _, _, _ => pyEqOpt_refl _
  | some (.str s), v1o, mv, hm, h1, h2, hc => by
      rw [mergeVal_some_nonobj _ (JVal.str s) (fun fs h => by cases h),
        mergeVal_some_nonobj _ (JVal.str s) (fun fs h => by cases h)]
      by_cases hs : isSentinel (JVal.str s) = true
      · rw [if_pos hs, if_pos hs]
        exact pyEqOpt_refl _
      · rw [if_neg hs, if_neg hs,
          mergeVal_some_nonobj mv (JVal.str s) (fun fs h => by cases h), if_neg hs]
        exact pyEqOpt_refl _
  | some (.obj d2), v1o, mv, hm, h1, h2, hc => by
      rcases v1o with _ | v1
      · exact pyEqOpt_refl _
      · rcases v1 with _ | b1 | n1 | s1 | xs1 | d1
        case null => exact pyEqOpt_refl _
        case bool =>
          rcases mv with _ | (_ | bw | nw | sw | xsw | mM) <;>
            first
              | exact pyEqOpt_refl _
              | (rw [condVal.eq_def] at hc; simp [isSentinel] at hc)
        case num =>
          rcases mv with _ | (_ | bw | nw | sw | xsw | mM) <;>
            first
              | exact pyEqOpt_refl _
              | (rw [condVal.eq_def] at hc; simp [isSentinel] at hc)
        case arr =>
          rcases mv with _ | (_ | bw | nw | sw | xsw | mM) <;>
            first
              | exact pyEqOpt_refl _
              | (rw [condVal.eq_def] at hc; simp [isSentinel] at hc)
        case str =>
          rcases mv with _ | (_ | bw | nw | sw | xsw | mM)
          case some.obj =>
            have hs : isSentinel (JVal.str s1) = true := by
              rw [condVal.eq_def] at hc
              simpa using hc
            rw [mergeVal_some_nonobj _ (JVal.str s1) (fun fs h => by cases h), if_pos hs]
            exact pyEqOpt_refl _
          all_goals
            rw [mergeVal_some_nonobj _ (JVal.str s1) (fun fs h => by cases h)]
            by_cases hs : isSentinel (JVal.str s1) = true
            · rw [if_pos hs]
              exact pyEqOpt_refl _
            · rw [if_neg hs]
              exact pyEqOpt_refl _
        case obj =>
          rcases mv with _ | (_ | bw | nw | sw | xsw | mM)
          case some.obj =>
            show pyEq (JVal.obj (deepMerge (deepMerge mM d1) d2))
              (JVal.obj (deepMerge mM (deepMerge d1 d2))) = true
            have hmM : fieldsWf mM = true := by simpa [wfOpt, JVal.wf] using hm
            have hd1 : fieldsWf d1 = true := by simpa [wfOpt, JVal.wf] using h1
            have hd2 : fieldsWf d2 = true := by simpa [wfOpt, JVal.wf] using h2
            have hco : condObj mM d1 d2 = true := by rwa [condVal_objs] at hc
            exact deepMerge_assoc_obj d2 d1 mM hmM hd1 hd2 hco
          all_goals exact pyEqOpt_refl _
termination_by v2o _ _ _ _ _ _ => sizeOf v2o

/-- Object-level associativity of the deep merge under `condObj`. -/
theorem deepMerge_assoc_obj : ∀ (d2 d1 mM : JFields),
    fieldsWf mM = true → fieldsWf d1 = true → fieldsWf d2 = true →
    condObj mM d1 d2 = true →
    pyEq (.obj (deepMerge (deepMerge mM d1) d2)) (.obj (deepMerge mM (deepMerge d1 d2))) = true
  | d2, d1, mM, hm, h1, h2, hc => by
      apply pyEq_obj_of_pointwise
      intro k
      rw [lookupKey_deepMerge d2 _ k h2, lookupKey_deepMerge d1 mM k h1,
        lookupKey_deepMerge (deepMerge d1 d2) mM k (deepMerge_wf d2 d1 h1 h2),
        lookupKey_deepMerge d2 d1 k h2]
      exact mergeVal_assoc (lookupKey d2 k) (lookupKey d1 k) (lookupKey mM k)
        (wfOpt_lookup hm k) (wfOpt_lookup h1 k) (wfOpt_lookup h2 k)
        (condObj_lookup h2 hc k)
termination_by d2 _ _ _ _ _ _ => sizeOf d2 + 1
decreasing_by
  rcases hlk : lookupKey d2 k with _ | v
  · have hpos : 0 < sizeOf d2 := by cases d2 <;> simp_arith
    simp [hlk]
    omega
  · have := sizeOf_lookupKey hlk
    simp [hlk]
    omega

end

/-- Sentinel entries of the payload never change the master. -/
theorem lookupKey_deepMerge_sentinel {m p : JFields} {k : String} {w : JVal}
    (hp : fieldsWf p = true) (hk : lookupKey p k = some w) (hw : isSentinel w = true) :
    lookupKey (deepMerge m p) k = lookupKey m k := by
  rw [lookupKey_deepMerge p m k hp, hk]
  rcases w with _ | b | n | s | xs | fs
  case null => rfl
  case str =>
    rw [mergeVal_some_nonobj _ (JVal.str s) (fun fs h => by cases h), if_pos hw]
  all_goals simp [isSentinel] at hw

/-- C1, counterexample: deep merge is not associative.  With master
`{"k": {"a": 1}}`, first payload `{"k": 5}` and second payload `{"k": {}}`,
merging in sequence leaves `{"k": {}}` while pre-merging the payloads
leaves `{"k": {"a": 1}}`; the two results are not Python-equal. -/
theorem deep_merge_assoc_counterexample :
    lookupKey (deepMerge (deepMerge [("k", JVal.obj [("a", JVal.num 1)])] [("k", JVal.num 5)])
      [("k", JVal.obj [])]) "k" = some (JVal.obj [])
    ∧ lookupKey (deepMerge [("k", JVal.obj [("a", JVal.num 1)])]
        (deepMerge [("k", JVal.num 5)] [("k", JVal.obj [])])) "k"
        = some (JVal.obj [("a", JVal.num 1)])
    ∧ pyEq (JVal.obj (deepMerge (deepMerge [("k", JVal.obj [("a", JVal.num 1)])]
          [("k", JVal.num 5)]) [("k", JVal.obj [])]))
        (JVal.obj (deepMerge [("k", JVal.obj [("a", JVal.num 1)])]
          (deepMerge [("k", JVal.num 5)] [("k", JVal.obj [])]))) = false
    ∧ fieldsWf [("k", JVal.obj [("a", JVal.num 1)])] = true
    ∧ fieldsWf [("k", JVal.num 5)] = true
    ∧ fieldsWf [("k", JVal.obj [])] = true := by
  refine ⟨?_, ?_, ?_, ?_, ?_, ?_⟩ <;>
    simp [deepMerge_cons, deepMerge_nil, mergeStep.eq_def, lookupKey, setKey, isSentinel,
      pyEq_obj_obj, pyEqSub_cons, pyEqSub_nil, pyEqAt.eq_def, fieldsWf, JVal.wf]

/-- C1 (amended): for well-formed payloads, merging `P1` into the master and
then `P2` is Python-equal to merging `merge(P1, P2)`, provided that at no
key path the master holds a dict, `P1` a non-sentinel non-dict value, and
`P2` a dict (`condObj`); and no sentinel field of `P2` changes the value the
master holds after `P1` (unconditionally within `condObj`). -/
theorem deep_merge_assoc_amended (m p1 p2 : JFields)
    (hm : fieldsWf m = true) (h1 : fieldsWf p1 = true) (h2 : fieldsWf p2 = true)
    (hcond : condObj m p1 p2 = true) :
    pyEq (JVal.obj (deepMerge (deepMerge m p1) p2))
      (JVal.obj (deepMerge m (deepMerge p1 p2))) = true
    ∧ ∀ (k : String) (w : JVal), lookupKey p2 k = some w → isSentinel w = true →
        lookupKey (deepMerge (deepMerge m p1) p2) k = lookupKey (deepMerge m p1) k :=
  ⟨deepMerge_assoc_obj p2 p1 m hm h1 h2 hcond,
   fun _ _ hk hw => lookupKey_deepMerge_sentinel h2 hk hw⟩

/-- Witness for C1 at a concrete master and payloads: the sentinel `"?"` in
`P2` leaves the master's `"a"` field untouched and the two association
orders agree. -/
theorem deep_merge_assoc_amended_witness :
    pyEq (JVal.obj (deepMerge (deepMerge [("a", JVal.str "x")] [("b", JVal.num 1)])
        [("a", JVal.str "?"), ("c", JVal.num 2)]))
      (JVal.obj (deepMerge [("a", JVal.str "x")]
        (deepMerge [("b", JVal.num 1)] [("a", JVal.str "?"), ("c", JVal.num 2)]))) = true
    ∧ lookupKey (deepMerge (deepMerge [("a", JVal.str "x")] [("b", JVal.num 1)])
        [("a", JVal.str "?"), ("c", JVal.num 2)]) "a"
        = lookupKey (deepMerge [("a", JVal.str "x")] [("b", JVal.num 1)]) "a" := by
  have h := deep_merge_assoc_amended [("a", JVal.str "x")] [("b", JVal.num 1)]
    [("a", JVal.str "?"), ("c", JVal.num 2)]
    (by simp [fieldsWf, JVal.wf])
    (by simp [fieldsWf, JVal.wf])
    (by simp [fieldsWf, JVal.wf])
    (by simp [condObj_cons, condObj_nil, lookupKey, condVal.eq_def])
  exact ⟨h.1, h.2 "a" (JVal.str "?") (by simp [lookupKey]) (by simp [isSentinel])⟩

/-! ## C10: the deep merge never deletes keys -/

theorem mergeVal_isSome (mv vo : Option JVal) (h : mv.isSome) : (mergeVal mv vo).isSome := by
  rcases mv with _ | w
  · simp at h
  · rcases vo with _ | v
    · rw [mergeVal_none2]; rfl
    · rcases v with _ | b | n | s | xs | nf <;> rcases w with _ | b' | n' | s' | xs' | mf <;>
        first
          | rfl
          | (rw [mergeVal_some_nonobj _ (JVal.str s) (fun fs h => by cases h)]
             split <;> rfl)

theorem lookupKey_isSome_mergeStep (m : JFields) (k' k : String) (v : JVal)
    (h : (lookupKey m k).isSome) : (lookupKey (mergeStep m k' v) k).isSome := by
  by_cases hk : k' = k
  · subst hk
    rw [lookupKey_mergeStep_self]
    exact mergeVal_isSome _ _ h
  · rw [lookupKey_mergeStep_ne _ _ hk]
    exact h

theorem lookupKey_isSome_deepMerge : ∀ (n m : JFields) (k : String),
    (lookupKey m k).isSome → (lookupKey (deepMerge m n) k).isSome := by
  intro n
  induction n with
  | nil => intro m k h; simpa using h
  | cons q rest ih =>
      intro m k h
      obtain ⟨k', v⟩ := q
      rw [deepMerge_cons]
      exact ih _ k (lookupKey_isSome_mergeStep m k' k v h)

/-- C10: the deep merge never deletes information: every key present in the
master is still present after merging any payload (at any nesting level,
since nested dict merges are again `deepMerge`), and merging the empty
payload returns the master unchanged. -/
theorem deep_merge_no_delete (m n : JFields) :
    (∀ (k : String) (v : JVal), lookupKey m k = some v →
      ∃ w, lookupKey (deepMerge m n) k = some w)
    ∧ deepMerge m [] = m := by
  refine ⟨fun k v hv => ?_, deepMerge_nil m⟩
  have := lookupKey_isSome_deepMerge n m k (by simp [hv])
  exact Option.isSome_iff_exists.mp this

/-- Witness for C10 at a concrete master and payload. -/
theorem deep_merge_no_delete_witness :
    ∃ w, lookupKey (deepMerge [("a", JVal.num 1)] [("b", JVal.num 2)]) "a" = some w :=
  (deep_merge_no_delete [("a", JVal.num 1)] [("b", JVal.num 2)]).1 "a" (JVal.num 1)
    (by simp [lookupKey])

/-! ## Print again (`app/services/utils/print_again.py`) -/

/-- `PrinterGCodeState` from `app/models/domain.py`. -/
inductive GCodeState where
  | FINISH
  | SLICING
  | RUNNING
  | PAUSE
  | PREPARE
  | INIT
  | FAILED
  | IDLE
  | UNKNOWN
  deriving DecidableEq, Repr

/-- `LastSentProjectFile` from `app/models/domain.py`. -/
structure LastSentProjectFile where
  command : String
  url : String
  file : Option String := none
  param : Option String := none
  bed_leveling : Option Bool := none
  flow_cali : Option Bool := none
  timelapse : Option Bool := none
  use_ams : Option Bool := none
  ams_mapping : Option (List Int) := none
  layer_inspect : Option Bool := none
  vibration_cali : Option Bool := none
  sent_at : Option String := none
  deriving DecidableEq, Repr

/-- `PrintAgainState` from `app/models/domain.py`. -/
structure PrintAgainState where
  visible : Bool := false
  enabled : Bool := false
  payload : Option JFields := none
  reason : Option String := none
  deriving DecidableEq, Repr

/-- The fields of `PrintStatus` that the print-again derivation reads. -/
structure PrintStatus where
  gcode_state : GCodeState := .UNKNOWN
  file : Option String := none
  deriving DecidableEq, Repr

/-- `re.split(r'[\\/]', value)` on the character list of `value`. -/
def splitSepsAux : List Char → List (List Char)
  | [] => [[]]
  | c :: rest =>
      match splitSepsAux rest with
      | [] => [[]]
      | g :: gs => if c = '/' || c = '\\' then [] :: g :: gs else (c :: g) :: gs

/-- `_extract_filename`: last path component, `None` for falsy input or a
trailing separator. -/
def extractFilename : Option String → Option String
  | none => none
  | some s =>
      if s = "" then none
      else
        match (splitSepsAux s.toList).getLast? with
        | none => none
        | some last => if last = [] then none else some (String.mk last)

/-- Python truthiness on payload values. -/
def pyTruthy : JVal → Bool
  | .null => false
  | .bool b => b
  | .num n => n != 0
  | .str s => s != ""
  | .arr xs => !xs.isEmpty
  | .obj fs => !fs.isEmpty

/-- Python truthiness on a `dict.get` result. -/
def optTruthy : Option JVal → Bool
  | none => false
  | some v => pyTruthy v

/-- `build_print_again_payload`: assemble the knob dict from the last sent
`project_file` command, drop `None` fields, and require truthy `url` and
`plate`. -/
def buildPrintAgainPayload : Option LastSentProjectFile → Option JFields
  | none => none
  | some ls =>
      if ls.command != "project_file" then none
      else
        let entries : List (String × Option JVal) :=
          [("url", some (.str ls.url)),
           ("plate", ls.param.map .str),
           ("bed_leveling", ls.bed_leveling.map .bool),
           ("flow_cali", ls.flow_cali.map .bool),
           ("timelapse", ls.timelapse.map .bool),
           ("use_ams", ls.use_ams.map .bool),
           ("layer_inspect", ls.layer_inspect.map .bool),
           ("vibration_cali", ls.vibration_cali.map .bool)]
        let entries : List (String × Option JVal) := match ls.ams_mapping with
          | some xs => if !xs.isEmpty then
              entries ++ [("ams_mapping", some (.arr (xs.map JVal.num)))] else entries
          | none => entries
        let filtered : JFields :=
          entries.filterMap (fun (p : String × Option JVal) => p.2.map (fun v => (p.1, v)))
        if !optTruthy (lookupKey filtered "url") || !optTruthy (lookupKey filtered "plate") then
          none
        else
          some filtered

/-- `evaluate_print_again_state`. -/
def evaluatePrintAgain (ps : PrintStatus) (lastSent : Option LastSentProjectFile)
    (online : Bool) : PrintAgainState :=
  if ps.gcode_state ≠ GCodeState.FINISH ∧ ps.gcode_state ≠ GCodeState.FAILED then
    { reason := some "print_in_progress" }
  else
    match lastSent, buildPrintAgainPayload lastSent with
    | _, none => { reason := some "no_payload" }
    | none, some _ => { reason := some "no_payload" }
    | some ls, some payload =>
        if payload.isEmpty then { reason := some "no_payload" }
        else
          match (extractFilename ls.file).orElse (fun _ => extractFilename (some ls.url)),
              extractFilename ps.file with
          | some sentFile, some currentFile =>
              if sentFile ≠ currentFile then { reason := some "file_mismatch" }
              else
                let enabled := online && !payload.isEmpty
                let reason := if enabled then none
                  else if !online then some "printer_offline" else some "disabled"
                { visible := true, enabled := enabled, payload := some payload,
                  reason := reason }
          | _, _ => { reason := some "file_mismatch" }

/-- C2: the print-again derivation: `enabled` implies the printer is online,
the gcode state is FINISH or FAILED, and the basename of `last_sent.file`
(falling back to `last_sent.url`) equals the basename of `print.file`; and
when those conditions hold with a buildable payload the result is
`{visible: true, enabled: online, payload, reason: null if online else
"printer_offline"}`. -/
theorem print_again_ok (ps : PrintStatus) (lastSent : Option LastSentProjectFile)
    (online : Bool) :
    ((evaluatePrintAgain ps lastSent online).enabled = true →
      online = true
      ∧ (ps.gcode_state = GCodeState.FINISH ∨ ps.gcode_state = GCodeState.FAILED)
      ∧ ∃ (ls : LastSentProjectFile) (f : String), lastSent = some ls
          ∧ (extractFilename ls.file).orElse (fun _ => extractFilename (some ls.url)) = some f
          ∧ extractFilename ps.file = some f)
    ∧ (∀ (ls : LastSentProjectFile) (payload : JFields) (f : String),
        lastSent = some ls →
        (ps.gcode_state = GCodeState.FINISH ∨ ps.gcode_state = GCodeState.FAILED) →
        buildPrintAgainPayload lastSent = some payload →
        payload ≠ [] →
        (extractFilename ls.file).orElse (fun _ => extractFilename (some ls.url)) = some f →
        extractFilename ps.file = some f →
        evaluatePrintAgain ps lastSent online =
          { visible := true, enabled := online, payload := some payload,
            reason := if online then none else some "printer_offline" }) := by
  constructor
  · intro h
    by_cases hg : ps.gcode_state ≠ GCodeState.FINISH ∧ ps.gcode_state ≠ GCodeState.FAILED
    · rw [evaluatePrintAgain.eq_def, if_pos hg] at h
      simp at h
    · rw [evaluatePrintAgain.eq_def, if_neg hg] at h
      rw [not_and_or, not_not, not_not] at hg
      rcases lastSent with _ | ls
      · simp [buildPrintAgainPayload] at h
      · rcases hb : buildPrintAgainPayload (some ls) with _ | payload
        · rw [hb] at h
          simp at h
        · rw [hb] at h
          split at h
          · simp at h
          · simp at h
          · next ls2 payload2 heq1 heq2 =>
              injection heq1 with heq1
              injection heq2 with heq2
              subst heq1
              subst heq2
              split at h
              · simp at h
              · next hpne =>
                  split at h
                  · next sf cf hsent hcur =>
                      split at h
                      · simp at h
                      · next hne =>
                          rw [not_not] at hne
                          subst hne
                          simp only [PrintAgainState.enabled, Bool.and_eq_true] at h
                          exact ⟨h.1, hg, ls, sf, rfl, hsent, hcur⟩
                  · simp at h
  · intro ls payload f hls hfin hb hpne hsent hcur
    subst hls
    rw [evaluatePrintAgain.eq_def, if_neg (by rcases hfin with h | h <;> simp [h]), hb]
    have hpe : payload.isEmpty = false := by
      cases payload
      · exact absurd rfl hpne
      · rfl
    split
    · next heq => exact absurd heq (by simp)
    · next heq1 heq2 => exact absurd heq1 (by simp)
    · next ls2 payload2 heq1 heq2 =>
        injection heq1 with h1
        injection heq2 with h2
        subst h1
        subst h2
        rw [if_neg (by rw [hpe]; simp), hsent, hcur]
        split
        · next sf cf hsf hcf =>
            injection hsf with hsf
            injection hcf with hcf
            subst hsf
            subst hcf
            rw [if_neg (by intro hne; exact hne rfl)]
            cases online <;> simp [hpne, hpe]
        · next hcontra => exact (hcontra f f rfl rfl).elim

/-- Witness for C2 at a concrete finished print with a matching last-sent
project file. -/
theorem print_again_ok_witness :
    evaluatePrintAgain { gcode_state := .FINISH, file := some "cube.3mf" }
      (some { command := "project_file", url := "ftp:///cube.3mf", file := some "cube.3mf",
              param := some "Metadata/plate_1.gcode", use_ams := some false }) true
      = { visible := true, enabled := true,
          payload := some [("url", .str "ftp:///cube.3mf"),
            ("plate", .str "Metadata/plate_1.gcode"), ("use_ams", .bool false)],
          reason := none } := by
  have h := (print_again_ok { gcode_state := .FINISH, file := some "cube.3mf" }
    (some { command := "project_file", url := "ftp:///cube.3mf", file := some "cube.3mf",
            param := some "Metadata/plate_1.gcode", use_ams := some false }) true).2
    { command := "project_file", url := "ftp:///cube.3mf", file := some "cube.3mf",
      param := some "Metadata/plate_1.gcode", use_ams := some false }
    [("url", .str "ftp:///cube.3mf"), ("plate", .str "Metadata/plate_1.gcode"),
      ("use_ams", .bool false)]
    "cube.3mf" rfl (Or.inl rfl) (by decide) (by decide) (by decide) (by decide)
  simpa using h

/-! ## Remaining and finish time (`PrintDataParser`) -/

/-- `str.isdigit()` (ASCII digits; empty string is not a digit string). -/
def pyIsDigit (s : String) : Bool := !s.isEmpty && s.toList.all Char.isDigit

/-- Decimal value of a digit string. -/
def pyDigitsVal : List Char → Nat :=
  List.foldl (fun acc c => acc * 10 + (c.toNat - 48)) 0

/-- `_format_remaining`: ints/floats (including Python bools) are truncated
to int, digit-only strings parsed, everything else becomes 0. -/
def formatRemaining : JVal → Int
  | .bool b => if b then 1 else 0
  | .num n => n
  | .str s => if pyIsDigit s then (pyDigitsVal s.toList : Int) else 0
  | _ => 0

/-- One decimal digit character. -/
def digitChar (n : Nat) : Char := Char.ofNat (48 + n % 10)

/-- `strftime("%H:%M")` of a wall-clock time given in minutes. -/
def formatClock (t : Nat) : String :=
  let h := (t / 60) % 24
  let m := t % 60
  String.mk [digitChar (h / 10), digitChar h, ':', digitChar (m / 10), digitChar m]

/-- `_format_finish`: predicted wall-clock `HH:MM` when remaining is
positive, `"-"` otherwise; `now` is the current time in minutes. -/
def formatFinish (remaining : Int) (now : Nat) : String :=
  if remaining > 0 then formatClock (now + remaining.toNat) else "-"

theorem formatClock_ne_dash (t : Nat) : formatClock t ≠ "-" := by
  intro h
  rw [formatClock] at h
  have hdata := congrArg String.data h
  simp [String.data] at hdata

/-- C5, counterexample: a raw payload carrying the integer `-5` as
`mc_remaining_time` parses to the negative remaining time `-5`, and the
finish time is `"-"` although the remaining time is not zero. -/
theorem remaining_time_counterexample :
    formatRemaining (.num (-5)) = -5
    ∧ formatRemaining (.num (-5)) < 0
    ∧ formatFinish (formatRemaining (.num (-5))) 0 = "-"
    ∧ formatRemaining (.num (-5)) ≠ 0 := by
  refine ⟨rfl, by decide, ?_, by decide⟩
  rw [formatFinish]
  decide

/-- C5 (amended): the parsed remaining time is non-negative unless the raw
value is a negative number (negative numeric payloads pass through
unchanged); the finish time is `"-"` exactly when the remaining time is not
positive, and equals now plus the remaining minutes rendered `HH:MM` when
it is positive. -/
theorem remaining_finish_amended (v : JVal) (now : Nat) :
    (formatRemaining v < 0 → ∃ n : Int, v = .num n ∧ n < 0)
    ∧ (formatFinish (formatRemaining v) now = "-" ↔ formatRemaining v ≤ 0)
    ∧ (0 < formatRemaining v →
        formatFinish (formatRemaining v) now = formatClock (now + (formatRemaining v).toNat)) := by
  refine ⟨?_, ?_, ?_⟩
  · intro h
    rcases v with _ | b | n | s | xs | fs
    case num => exact ⟨n, rfl, h⟩
    case bool => cases b <;> simp [formatRemaining] at h
    case str =>
      rw [formatRemaining] at h
      split at h
      · exact absurd h (by simp)
      · exact absurd h (by simp)
    all_goals simp [formatRemaining] at h
  · rw [formatFinish]
    split
    · next hpos =>
        constructor
        · intro h
          exact absurd h (formatClock_ne_dash _)
        · intro h
          exact absurd h (by omega)
    · next hpos =>
        simp only [eq_self_iff_true, true_iff]
        omega
  · intro h
    rw [formatFinish, if_pos h]

/-- Witness for C5 at a positive and a zero remaining time. -/
theorem remaining_finish_amended_witness :
    formatFinish (formatRemaining (.num 90)) 30 = formatClock 120
    ∧ formatFinish (formatRemaining (.num 0)) 30 = "-"
    ∧ formatClock 120 = "02:00" := by
  have h1 := (remaining_finish_amended (.num 90) 30).2.2 (by decide)
  have h2 := (remaining_finish_amended (.num 0) 30).2.1.mpr (by decide)
  refine ⟨by simpa using h1, h2, by decide⟩

/-! ## Password verification (`app/core/auth.py`) -/

/-- `str.split(sep, maxsplit)` on a character list: split on at most
`maxsplit` occurrences of `sep`, keeping the remainder whole. -/
def splitLimit (sep : Char) : Nat → List Char → List (List Char)
  | 0, cs => [cs]
  | m + 1, cs =>
      let pre := cs.takeWhile (fun c => c ≠ sep)
      match cs.dropWhile (fun c => c ≠ sep) with
      | [] => [cs]
      | _ :: tail => pre :: splitLimit sep m tail

/-- Digit-string grammar of Python `int()` after the first digit: digits
with single underscores allowed between digits. -/
def pyIntTail : List Char → Bool
  | [] => true
  | '_' :: c :: rest => c.isDigit && pyIntTail rest
  | '_' :: [] => false
  | c :: rest => c.isDigit && pyIntTail rest

/-- Whole digit-group grammar of Python `int()` (ASCII digits). -/
def pyIntDigits : List Char → Option Nat
  | [] => none
  | c :: rest =>
      if c.isDigit && pyIntTail rest then
        some (pyDigitsVal ((c :: rest).filter (fun d => d ≠ '_')))
      else none

/-- Python `int(str)`: strip whitespace, optional sign, digit group. -/
def pyInt (s : String) : Option Int :=
  let cs := ((s.toList.dropWhile pyIsSpace).reverse.dropWhile pyIsSpace).reverse
  match cs with
  | '+' :: rest => (pyIntDigits rest).map (fun n => (n : Int))
  | '-' :: rest => (pyIntDigits rest).map (fun n => -(n : Int))
  | rest => (pyIntDigits rest).map (fun n => (n : Int))

/-- Value of one urlsafe-base64 alphabet character. -/
def b64Char (c : Char) : Option Nat :=
  if 'A' ≤ c ∧ c ≤ 'Z' then some (c.toNat - 65)
  else if 'a' ≤ c ∧ c ≤ 'z' then some (c.toNat - 97 + 26)
  else if '0' ≤ c ∧ c ≤ '9' then some (c.toNat - 48 + 52)
  else if c = '-' then some 62
  else if c = '_' then some 63
  else none

/-- Decode four-character base64 groups into bytes; `=` padding is only
accepted at the end (a simplification of `binascii`'s lenient mode at
malformed-padding inputs, which the claims do not depend on). -/
def decodeGroups : List Char → Option (List Nat)
  | [] => some []
  | a :: b :: c :: d :: rest => do
      let va ← b64Char a
      let vb ← b64Char b
      if c = '=' then
        if d = '=' && rest.isEmpty then some [va * 4 + vb / 16] else none
      else do
        let vc ← b64Char c
        if d = '=' then
          if rest.isEmpty then some [va * 4 + vb / 16, (vb % 16) * 16 + vc / 4] else none
        else do
          let vd ← b64Char d
          let more ← decodeGroups rest
          some ([va * 4 + vb / 16, (vb % 16) * 16 + vc / 4, (vc % 4) * 64 + vd] ++ more)
  | _ => none

/-- `_decode_bytes`: re-pad with `=` to a multiple of four, then decode
urlsafe base64; non-alphabet characters are discarded as `binascii` does,
and a group count mismatch is an error. -/
def b64Decode (s : String) : Option (List Nat) :=
  let padded := s.toList ++ List.replicate ((4 - s.length % 4) % 4) '='
  decodeGroups (padded.filter (fun c => (b64Char c).isSome || c = '='))

/-- `_parse_hash`: split into exactly four `$`-separated fields, check the
scheme, parse the iteration count, decode the digest.  `none` models a
raised `ValueError` (which `verify_password` catches). -/
def parseHash (stored : String) : Option (Int × String × List Nat) :=
  match splitLimit '$' 3 stored.toList with
  | [scheme, iterStr, salt, digest] =>
      if String.mk scheme ≠ "pbkdf2_sha256" then none
      else
        match pyInt (String.mk iterStr) with
        | none => none
        | some iters =>
            match b64Decode (String.mk digest) with
            | none => none
            | some bytes => some (iters, String.mk salt, bytes)
  | _ => none

/-- All characters encodable as ASCII (`salt.encode("ascii")`). -/
def asciiOk (s : String) : Bool := s.toList.all (fun c => c.toNat < 128)

/-- `verify_password`, parameterized by the PBKDF2 digest function.  The
`Except` error models an exception escaping the function: `salt.encode`
and `hashlib.pbkdf2_hmac` run outside the `try` that guards parsing. -/
def verifyPassword (pbkdf2 : String → String → Int → List Nat)
    (password stored : String) : Except String Bool :=
  if password = "" || stored = "" then .ok false
  else
    match parseHash stored with
    | none => .ok false
    | some (iters, salt, digest) =>
        if !asciiOk salt then .error "UnicodeEncodeError"
        else if iters < 1 then .error "iteration value must be greater than 0"
        else .ok (pbkdf2 password salt iters == digest)

/-- C9, counterexample: `verify_password` is not total: a stored hash whose
iteration field is the valid integer `0` makes `hashlib.pbkdf2_hmac` raise
outside the guard instead of returning a boolean. -/
theorem verify_password_counterexample :
    verifyPassword (fun _ _ _ => []) "pw" "pbkdf2_sha256$0$ab$QUJD"
      = .error "iteration value must be greater than 0" := by rfl

/-- C9 (amended): `verify_password` returns `false` on an empty password or
stored hash and whenever `_parse_hash` fails (too few `$`-fields, wrong
scheme, non-integer iteration count, undecodable digest), and returns a
boolean whenever the hash parses with an ASCII salt and a positive
iteration count; but it raises (rather than returning) when the parsed
iteration count is less than 1 or the salt is not ASCII. -/
theorem verify_password_amended (pbkdf2 : String → String → Int → List Nat)
    (password stored : String) :
    (password = "" ∨ stored = "" → verifyPassword pbkdf2 password stored = .ok false)
    ∧ (parseHash stored = none → verifyPassword pbkdf2 password stored = .ok false)
    ∧ (∀ iters salt digest, password ≠ "" → stored ≠ "" →
        parseHash stored = some (iters, salt, digest) → asciiOk salt = true → 1 ≤ iters →
        verifyPassword pbkdf2 password stored = .ok (pbkdf2 password salt iters == digest))
    ∧ (∀ iters salt digest, password ≠ "" → stored ≠ "" →
        parseHash stored = some (iters, salt, digest) → asciiOk salt = true → iters < 1 →
        verifyPassword pbkdf2 password stored
          = .error "iteration value must be greater than 0")
    ∧ (∀ iters salt digest, password ≠ "" → stored ≠ "" →
        parseHash stored = some (iters, salt, digest) → asciiOk salt = false →
        verifyPassword pbkdf2 password stored = .error "UnicodeEncodeError")
    ∧ ((splitLimit '$' 3 stored.toList).length ≠ 4 → parseHash stored = none)
    ∧ (∀ scheme iterStr salt digest,
        splitLimit '$' 3 stored.toList = [scheme, iterStr, salt, digest] →
        String.mk scheme ≠ "pbkdf2_sha256" → parseHash stored = none)
    ∧ (∀ scheme iterStr salt digest,
        splitLimit '$' 3 stored.toList = [scheme, iterStr, salt, digest] →
        pyInt (String.mk iterStr) = none → parseHash stored = none) := by
  refine ⟨?_, ?_, ?_, ?_, ?_, ?_, ?_, ?_⟩
  · intro h
    rw [verifyPassword, if_pos (by rcases h with h | h <;> simp [h])]
  · intro hp
    rw [verifyPassword]
    split
    · rfl
    · rw [hp]
  · intro iters salt digest hpw hst hp ha hi
    rw [verifyPassword, if_neg (by simp [hpw, hst]), hp]
    simp [ha, show ¬(iters < 1) from by omega]
  · intro iters salt digest hpw hst hp ha hi
    rw [verifyPassword, if_neg (by simp [hpw, hst]), hp]
    simp [ha, hi]
  · intro iters salt digest hpw hst hp ha
    rw [verifyPassword, if_neg (by simp [hpw, hst]), hp]
    simp [ha]
  · intro h
    rw [parseHash.eq_def]
    split
    · next heq => exact absurd (by rw [heq]; rfl) h
    · rfl
  · intro scheme iterStr salt digest hsp hsch
    rw [parseHash.eq_def]
    split
    · next s2 i2 sa2 d2 heq =>
        rw [hsp] at heq
        injection heq with h1 heq
        injection heq with h2 heq
        injection heq with h3 heq
        injection heq with h4 _
        subst h1
        rw [if_pos hsch]
    · next hne => exact (hne scheme iterStr salt digest hsp).elim
  · intro scheme iterStr salt digest hsp hint
    rw [parseHash.eq_def]
    split
    · next s2 i2 sa2 d2 heq =>
        rw [hsp] at heq
        injection heq with h1 heq
        injection heq with h2 heq
        injection heq with h3 heq
        injection heq with h4 _
        subst h1
        subst h2
        split
        · rfl
        · rw [hint]
    · next hne => exact (hne scheme iterStr salt digest hsp).elim

/-- Witness for C9: a well-formed hash verifies to a boolean, a malformed
one to `false`, and empty inputs to `false`. -/
theorem verify_password_amended_witness :
    verifyPassword (fun _ _ _ => [0]) "pw" "pbkdf2_sha256$1000$ab$QUJD"
      = .ok (((fun (_ : String) (_ : String) (_ : Int) => [(0 : Nat)]) "pw" "ab" 1000) == [65, 66, 67])
    ∧ verifyPassword (fun _ _ _ => [0]) "pw" "nothash" = .ok false
    ∧ verifyPassword (fun _ _ _ => [0]) "" "pbkdf2_sha256$1000$ab$QUJD" = .ok false := by
  refine ⟨?_, ?_, ?_⟩
  · exact (verify_password_amended (fun _ _ _ => [0]) "pw" "pbkdf2_sha256$1000$ab$QUJD").2.2.1
      1000 "ab" [65, 66, 67] (by decide) (by decide) (by decide) (by decide) (by decide)
  · exact (verify_password_amended (fun _ _ _ => [0]) "pw" "nothash").2.1 (by decide)
  · exact (verify_password_amended (fun _ _ _ => [0]) "" "pbkdf2_sha256$1000$ab$QUJD").1
      (Or.inl rfl)

/-! ## Filament color canonicalization
(`ControlCommandService.normalize_tray_color`,
`FilamentCaptureService._normalize_color`) -/

/-- `ch in "0123456789abcdefABCDEF"`. -/
def isHexChar (c : Char) : Bool :=
  c.isDigit || ('a' ≤ c && c ≤ 'f') || ('A' ≤ c && c ≤ 'F')

/-- Python `str.strip()` on a character list. -/
def pyStrip (cs : List Char) : List Char :=
  ((cs.dropWhile pyIsSpace).reverse.dropWhile pyIsSpace).reverse

/-- `normalize_tray_color` on characters: strip, drop `#`, pad 6-digit
colors with `FF`, accept exactly 8 hex digits, uppercase; `[]` rejects. -/
def normColorList (cs : List Char) : List Char :=
  let raw := (pyStrip cs).filter (fun c => c ≠ '#')
  let raw := if raw.length = 6 then raw ++ ['F', 'F'] else raw
  if raw.length = 8 && raw.all isHexChar then raw.map Char.toUpper else []

/-- `ControlCommandService.normalize_tray_color`. -/
def normalizeTrayColor (value : String) : String :=
  String.mk (normColorList value.toList)

/-- `FilamentCaptureService._normalize_color` on characters: `none` for a
blank string and on rejection, otherwise the same pipeline. -/
def normColorCaptureList (cs : List Char) : Option (List Char) :=
  let text := pyStrip cs
  if text.isEmpty then none
  else
    let raw := text.filter (fun c => c ≠ '#')
    let raw := if raw.length = 6 then raw ++ ['F', 'F'] else raw
    if raw.length = 8 && raw.all isHexChar then some (raw.map Char.toUpper) else none

/-- `FilamentCaptureService._normalize_color`. -/
def normalizeColorCapture : Option String → Option String
  | none => none
  | some s => (normColorCaptureList s.toList).map String.mk

theorem hexChar_not_space {c : Char} (h : isHexChar c = true) : pyIsSpace c = false := by
  cases hsp : pyIsSpace c
  · rfl
  · exfalso
    rw [pyIsSpace] at hsp
    simp only [Bool.or_eq_true, decide_eq_true_eq] at hsp
    have hc : c = ' ' ∨ c = '\t' ∨ c = '\n' ∨ c = '\r' ∨ c = '\x0b' ∨ c = '\x0c' := by
      tauto
    rcases hc with h1 | h1 | h1 | h1 | h1 | h1 <;> subst h1 <;> revert h <;> decide

theorem hexChar_ne_hash {c : Char} (h : isHexChar c = true) : c ≠ '#' := by
  intro heq
  subst heq
  revert h
  decide

theorem dropWhile_eq_self_of_not_head {p : Char → Bool} :
    ∀ {cs : List Char}, (∀ c ∈ cs, p c = false) → cs.dropWhile p = cs := by
  intro cs h
  cases cs with
  | nil => rfl
  | cons c rest =>
      rw [List.dropWhile_cons, h c (List.mem_cons_self _ _)]
      simp

theorem pyStrip_of_no_space {cs : List Char} (h : ∀ c ∈ cs, pyIsSpace c = false) :
    pyStrip cs = cs := by
  rw [pyStrip, dropWhile_eq_self_of_not_head h,
    dropWhile_eq_self_of_not_head (fun c hc => h c (List.mem_reverse.mp hc)),
    List.reverse_reverse]

theorem pyStrip_of_all_hex {cs : List Char} (h : cs.all isHexChar = true) :
    pyStrip cs = cs :=
  pyStrip_of_no_space fun c hc => hexChar_not_space (List.all_eq_true.mp h c hc)

theorem filter_ne_hash_of_all_hex {cs : List Char} (h : cs.all isHexChar = true) :
    cs.filter (fun c => c ≠ '#') = cs := by
  rw [List.filter_eq_self]
  intro c hc
  simpa using hexChar_ne_hash (List.all_eq_true.mp h c hc)

theorem allhex_append_FF {cs : List Char} (h : cs.all isHexChar = true) :
    (cs ++ ['F', 'F']).all isHexChar = true := by
  rw [List.all_append, h]
  decide

theorem normColorList_hex6 {cs : List Char} (hlen : cs.length = 6)
    (hhex : cs.all isHexChar = true) :
    normColorList cs = (cs ++ ['F', 'F']).map Char.toUpper := by
  rw [normColorList]
  simp only [pyStrip_of_all_hex hhex, filter_ne_hash_of_all_hex hhex]
  rw [if_pos hlen, if_pos ?hc]
  case hc =>
    rw [allhex_append_FF hhex, List.length_append, hlen]
    decide

theorem normColorList_hash {cs : List Char} (hlen : cs.length = 6)
    (hhex : cs.all isHexChar = true) :
    normColorList ('#' :: cs) = (cs ++ ['F', 'F']).map Char.toUpper := by
  rw [normColorList]
  have hns : ∀ c ∈ '#' :: cs, pyIsSpace c = false := by
    intro c hc
    rcases List.mem_cons.mp hc with h | h
    · subst h; decide
    · exact hexChar_not_space (List.all_eq_true.mp hhex c h)
  simp only [pyStrip_of_no_space hns]
  have hf : ('#' :: cs).filter (fun c => c ≠ '#') = cs := by
    rw [List.filter_cons_of_neg (by simp), filter_ne_hash_of_all_hex hhex]
  simp only [hf]
  rw [if_pos hlen, if_pos ?hc]
  case hc =>
    rw [allhex_append_FF hhex, List.length_append, hlen]
    decide

theorem normColorList_hex8 {cs : List Char} (hlen : cs.length = 8)
    (hhex : cs.all isHexChar = true) :
    normColorList cs = cs.map Char.toUpper := by
  rw [normColorList, pyStrip_of_all_hex hhex, filter_ne_hash_of_all_hex hhex]
  simp [hlen, hhex]

theorem normColorList_reject {cs : List Char} (hlen3 : cs.length = 3 ∨ cs.length = 4)
    (hhex : cs.all isHexChar = true) :
    normColorList cs = [] := by
  rw [normColorList, pyStrip_of_all_hex hhex, filter_ne_hash_of_all_hex hhex]
  rcases hlen3 with h | h <;> simp [h]

theorem isEmpty_false_of_length {cs : List Char} {n : Nat} (h : cs.length = n)
    (hn : n ≠ 0) : cs.isEmpty = false := by
  cases cs
  · rw [List.length_nil] at h
    exact absurd h.symm hn
  · rfl

theorem normColorCaptureList_hex6 {cs : List Char} (hlen : cs.length = 6)
    (hhex : cs.all isHexChar = true) :
    normColorCaptureList cs = some ((cs ++ ['F', 'F']).map Char.toUpper) := by
  rw [normColorCaptureList, pyStrip_of_all_hex hhex]
  rw [isEmpty_false_of_length hlen (by decide)]
  rw [filter_ne_hash_of_all_hex hhex]
  have h8 : (cs ++ ['F', 'F']).length = 8 := by simp [hlen]
  simp [hlen, h8, allhex_append_FF hhex]

theorem normColorCaptureList_reject {cs : List Char}
    (hlen3 : cs.length = 3 ∨ cs.length = 4) (hhex : cs.all isHexChar = true) :
    normColorCaptureList cs = none := by
  rw [normColorCaptureList, pyStrip_of_all_hex hhex]
  rw [isEmpty_false_of_length (n := cs.length) rfl (by omega)]
  rw [filter_ne_hash_of_all_hex hhex]
  rcases hlen3 with h | h <;> simp [h]

/-- C7, counterexample: the 3-digit `#RGB` shorthand `"#0AF"` and the
4-digit `RGBA` shorthand `"0AFF"` are rejected by both color normalizers,
not canonicalized to 8 uppercase hex digits. -/
theorem color_canonicalization_counterexample :
    normalizeTrayColor "#0AF" = ""
    ∧ normalizeColorCapture (some "#0AF") = none
    ∧ normalizeTrayColor "0AFF" = ""
    ∧ normalizeColorCapture (some "0AFF") = none := by
  refine ⟨?_, ?_, ?_, ?_⟩ <;> rfl

/-- C7 (amended): the color canonicalizers map the `#RRGGBB`, `RRGGBB` and
`RRGGBBAA` forms of a color to the same 8-character uppercase value
(6-digit inputs gain an `FF` alpha suffix) and agree with each other, but
3-digit (`#RGB`) and 4-digit (`RGBA`) shorthands are rejected (`""` /
`None`) rather than canonicalized. -/
theorem color_canonicalization_amended (cs : List Char)
    (hlen : cs.length = 6) (hhex : cs.all isHexChar = true) :
    normalizeTrayColor (String.mk cs) = String.mk ((cs ++ ['F', 'F']).map Char.toUpper)
    ∧ normalizeTrayColor (String.mk ('#' :: cs))
        = String.mk ((cs ++ ['F', 'F']).map Char.toUpper)
    ∧ normalizeTrayColor (String.mk (cs ++ ['F', 'F']))
        = String.mk ((cs ++ ['F', 'F']).map Char.toUpper)
    ∧ normalizeColorCapture (some (String.mk cs))
        = some (String.mk ((cs ++ ['F', 'F']).map Char.toUpper))
    ∧ ((cs ++ ['F', 'F']).map Char.toUpper).length = 8
    ∧ (∀ ds : List Char, ds.length = 3 ∨ ds.length = 4 → ds.all isHexChar = true →
        normalizeTrayColor (String.mk ds) = ""
          ∧ normalizeColorCapture (some (String.mk ds)) = none) := by
  have hmap8 : ((cs ++ ['F', 'F']).map Char.toUpper).length = 8 := by
    rw [List.length_map, List.length_append, hlen]
    rfl
  have hhex8 : (cs ++ ['F', 'F']).all isHexChar = true := allhex_append_FF hhex
  refine ⟨?_, ?_, ?_, ?_, hmap8, ?_⟩
  · exact congrArg String.mk (normColorList_hex6 hlen hhex)
  · exact congrArg String.mk (normColorList_hash hlen hhex)
  · have h8 : (cs ++ ['F', 'F']).length = 8 := by
      rw [List.length_append, hlen]
      rfl
    exact congrArg String.mk (normColorList_hex8 h8 hhex8)
  · show (normColorCaptureList cs).map String.mk = _
    rw [normColorCaptureList_hex6 hlen hhex]
    rfl
  · intro ds hdl hdh
    refine ⟨congrArg String.mk (normColorList_reject hdl hdh), ?_⟩
    show (normColorCaptureList ds).map String.mk = _
    rw [normColorCaptureList_reject hdl hdh]
    rfl

/-- Witness for C7 at the color `a1b2c3`: hash, plain, and 8-digit forms
all canonicalize to `A1B2C3FF`, and the shorthand `a1b` is rejected. -/
theorem color_canonicalization_amended_witness :
    normalizeTrayColor "#a1b2c3" = "A1B2C3FF"
    ∧ normalizeTrayColor "a1b2c3" = "A1B2C3FF"
    ∧ normalizeTrayColor "a1b2c3FF" = "A1B2C3FF"
    ∧ normalizeColorCapture (some "a1b2c3") = some "A1B2C3FF"
    ∧ normalizeTrayColor "a1b" = "" := by
  have h := color_canonicalization_amended ['a', '1', 'b', '2', 'c', '3'] rfl (by decide)
  refine ⟨?_, ?_, ?_, ?_, ?_⟩
  · simpa using h.2.1
  · simpa using h.1
  · simpa using h.2.2.1
  · simpa using h.2.2.2.1
  · simpa using (h.2.2.2.2.2 ['a', '1', 'b'] (Or.inl rfl) (by decide)).1

/-! ## AMS parsing (`AmsParser.parse`, `app/services/utils/state_utils.py`) -/

/-- Python `str()` of a payload value.  List/dict reprs are abbreviated:
the claims only depend on them not being numeric strings, which also holds
for the real bracketed reprs. -/
def pyStr : JVal → String
  | .null => "None"
  | .bool b => if b then "True" else "False"
  | .num n => toString n
  | .str s => s
  | .arr _ => "[list]"
  | .obj _ => "\x7bdict\x7d"

/-- `normalize_str`: `default` for `None`, else `str(value)`. -/
def normalizeStr (v : Option JVal) (default : String) : String :=
  match v with
  | none => default
  | some .null => default
  | some v => pyStr v

/-- `_coerce_str`: `default` for `None`, else `str(value)`. -/
def coerceStr (v : Option JVal) (default : String) : String :=
  match v with
  | none => default
  | some .null => default
  | some v => pyStr v

/-- Tail of the hex digit group accepted by `int(str, 16)`: single
underscores are allowed between digits. -/
def pyHexTail : List Char → Bool
  | [] => true
  | c :: rest =>
      if c = '_' then
        match rest with
        | [] => false
        | c2 :: rest2 => isHexChar c2 && pyHexTail rest2
      else isHexChar c && pyHexTail rest

/-- Value of a hex digit. -/
def hexDigitVal (c : Char) : Nat :=
  if c.isDigit then c.toNat - 48
  else if 'a' ≤ c && c ≤ 'f' then c.toNat - 87
  else if 'A' ≤ c && c ≤ 'F' then c.toNat - 55
  else 0

/-- Hex digit group of `int(str, 16)`. -/
def pyHexGroup : List Char → Option Nat
  | [] => none
  | c :: rest =>
      if isHexChar c && pyHexTail rest then
        some (((c :: rest).filter (fun d => d ≠ '_')).foldl
          (fun acc d => acc * 16 + hexDigitVal d) 0)
      else none

/-- Hex digit group with the optional `0x`/`0X` prefix of `int(str, 16)`. -/
def pyHexBody (cs : List Char) : Option Nat :=
  match cs with
  | c0 :: c1 :: rest =>
      if c0 = '0' ∧ (c1 = 'x' ∨ c1 = 'X') then pyHexGroup rest else pyHexGroup cs
  | _ => pyHexGroup cs

/-- `int(str, 16)` on a stripped character list: optional sign, hex body. -/
def pyIntHexList (cs : List Char) : Option Int :=
  match cs with
  | c :: rest =>
      if c = '+' then (pyHexBody rest).map (fun n => (n : Int))
      else if c = '-' then (pyHexBody rest).map (fun n => -(n : Int))
      else (pyHexBody (c :: rest)).map (fun n => (n : Int))
  | [] => (pyHexBody []).map (fun n => (n : Int))

/-- `int(str)` (base 10) on a stripped character list. -/
def pyIntDecList (cs : List Char) : Option Int :=
  match cs with
  | '+' :: rest => (pyIntDigits rest).map (fun n => (n : Int))
  | '-' :: rest => (pyIntDigits rest).map (fun n => -(n : Int))
  | rest => (pyIntDigits rest).map (fun n => (n : Int))

/-- `ch in "abcdefABCDEF"`: the test `parse_slot_int` uses to decide
between base 16 and base 10. -/
def isHexLetter (c : Char) : Bool :=
  ('a' ≤ c && c ≤ 'f') || ('A' ≤ c && c ≤ 'F')

/-- `parse_slot_int`: numbers truncate, strings parse as hex when they
contain a hex letter and as decimal otherwise. -/
def parseSlotInt : Option JVal → Option Int
  | none => none
  | some .null => none
  | some (.num n) => some n
  | some (.bool b) => some (if b then 1 else 0)
  | some (.str s) =>
      let raw := pyStrip s.toList
      if raw.isEmpty then none
      else if raw.any isHexLetter then
        pyIntHexList raw
      else
        pyIntDecList raw
  | some _ => none

/-- `bits_to_bool`: `value > 0` for numbers, hex-then-decimal parse for
strings, `None` otherwise. -/
def bitsToBool : Option JVal → Option Bool
  | none => none
  | some .null => none
  | some (.num n) => some (n > 0)
  | some (.bool b) => some b
  | some (.str s) =>
      let raw := pyStrip s.toList
      if raw.isEmpty then none
      else
        match pyIntHexList raw with
        | some n => some (n > 0)
        | none =>
            match pyIntDecList raw with
            | some n => some (n > 0)
            | none => none
  | some _ => none

/-- Python `(n >> i) & 1 == 1` with floor-division shift semantics. -/
def pyBit (n : Int) (i : Nat) : Bool := Int.fdiv n (2 ^ i) % 2 = 1

/-- `decode_tray_bits`. -/
def decodeTrayBits (bitsValue : JVal) (slotCount : Nat) : List Bool :=
  match parseSlotInt (some bitsValue) with
  | none => []
  | some parsed => (List.range slotCount).map (fun idx => pyBit parsed idx)

/-- `AmsTray` fields built by `AmsParser._build_tray`. -/
structure AmsTrayM where
  id : String := "?"
  material : String := "Empty"
  remain : Int := 0
  color : String := "000000FF"
  nozzle_min : String := "?"
  nozzle_max : String := "?"
  tray_type : String := "Unknown"
  tray_info_idx : String := ""
  deriving DecidableEq, Repr

/-- `AmsUnit` fields built by `AmsParser.parse`. -/
structure AmsUnitM where
  id : String := "?"
  ams_id : String := "?"
  humidity : String := "?"
  temp : String := "?"
  firmware : String := "N/A"
  product_name : Option String := none
  trays : List AmsTrayM := []
  deriving DecidableEq, Repr

/-- `AmsStatus` (the fields `AmsParser.parse` fills; capability and
status-word fields are independent of the claims and omitted). -/
structure AmsStatusM where
  ams_hub_connected : String := "Disconnected"
  total_ams : Nat := 0
  slots : List AmsTrayM := []
  ams_units : List AmsUnitM := []
  tray_exist_bits : String := "0"
  tray_is_bbl_bits : String := "0"
  tray_tar : String := "255"
  tray_now : String := "255"
  tray_pre : String := "255"
  tray_read_done_bits : String := "0"
  tray_reading_bits : String := "0"
  active_tray_index : Option Int := none
  tray_exist_slots : List Bool := []
  version : Option String := none
  deriving DecidableEq, Repr

/-- `AmsParser._extract_ams_units`. -/
def extractAmsUnits : JVal → List JFields
  | .obj fs =>
      match lookupKey fs "ams" with
      | some (.arr units) =>
          units.filterMap (fun u => match u with | .obj f => some f | _ => none)
      | _ => [fs]
  | .arr xs => xs.filterMap (fun u => match u with | .obj f => some f | _ => none)
  | _ => []

/-- `_safe_int` (used for `remain`): `0` for falsy or unparsable values,
`int(float(value))` otherwise; fractional strings are truncated. -/
def safeInt (v : Option JVal) : Int :=
  match v with
  | none => 0
  | some .null => 0
  | some (.num n) => n
  | some (.bool b) => if b then 1 else 0
  | some (.str s) =>
      let raw := pyStrip s.toList
      let intPart := raw.takeWhile (fun c => c ≠ '.')
      match pyIntDecList intPart with
      | some n => n
      | none => 0
  | some _ => 0

/-- Truthy-or-default: Python `value or default`. -/
def jOrDefault (v : Option JVal) (default : JVal) : JVal :=
  match v with
  | some w => if pyTruthy w then w else default
  | none => default

/-- `AmsParser._build_tray`. -/
def buildTray (tray : JFields) : AmsTrayM :=
  let trayType := jOrDefault (lookupKey tray "tray_type") (.str "Empty")
  let color := jOrDefault (lookupKey tray "tray_color") (.str "000000FF")
  { id := coerceStr (some ((lookupKey tray "id").getD (.str "?"))) "?"
    material := coerceStr (some trayType) "Empty"
    remain := safeInt (lookupKey tray "remain")
    color := coerceStr (some color) "000000FF"
    nozzle_min := coerceStr (lookupKey tray "nozzle_temp_min") "?"
    nozzle_max := coerceStr (lookupKey tray "nozzle_temp_max") "?"
    tray_type := coerceStr (some trayType) "Empty"
    tray_info_idx := coerceStr (some (jOrDefault (lookupKey tray "tray_info_idx") (.str ""))) "" }

/-- Trays of one raw AMS unit (non-dict entries are ignored). -/
def unitTrays (ud : JFields) : List AmsTrayM :=
  match lookupKey ud "tray" with
  | some (.arr ts) =>
      ts.filterMap (fun t => match t with | .obj f => some (buildTray f) | _ => none)
  | _ => []

/-- One `AmsUnit` of `AmsParser.parse`. -/
def buildUnit (ud : JFields) (amsModuleSw amsProductName : Option String) : AmsUnitM :=
  { id := coerceStr (lookupKey ud "id") "?"
    ams_id := coerceStr (some (jOrDefault (lookupKey ud "ams_id")
      ((lookupKey ud "id").getD .null))) "?"
    humidity := coerceStr (lookupKey ud "humidity") "?"
    temp := coerceStr (lookupKey ud "temp") "?"
    firmware := match amsModuleSw with
      | some s => if s ≠ "" then s else "N/A"
      | none => "N/A"
    product_name := amsProductName
    trays := unitTrays ud }

/-- `AmsParser.parse`. -/
def amsParse (amsData : JVal) (amsModuleSw amsProductName : Option String) : AmsStatusM :=
  let metadataSource : JFields := match amsData with | .obj fs => fs | _ => []
  let amsList := extractAmsUnits amsData
  let amsUnits := amsList.map (fun ud => buildUnit ud amsModuleSw amsProductName)
  let slots := (amsList.map unitTrays).flatten
  let trayExistBits := normalizeStr (lookupKey metadataSource "tray_exist_bits") "0"
  let hubConnected := bitsToBool (lookupKey metadataSource "ams_exist_bits")
  { ams_hub_connected := if hubConnected = some true then "Connected" else "Disconnected"
    total_ams := amsUnits.length
    slots := slots
    ams_units := amsUnits
    tray_exist_bits := trayExistBits
    tray_is_bbl_bits := normalizeStr (lookupKey metadataSource "tray_is_bbl_bits") "0"
    tray_tar := normalizeStr (lookupKey metadataSource "tray_tar") "255"
    tray_now := normalizeStr (lookupKey metadataSource "tray_now") "255"
    tray_pre := normalizeStr (lookupKey metadataSource "tray_pre") "255"
    tray_read_done_bits := normalizeStr (lookupKey metadataSource "tray_read_done_bits") "0"
    tray_reading_bits := normalizeStr (lookupKey metadataSource "tray_reading_bits") "0"
    active_tray_index := parseSlotInt (lookupKey metadataSource "tray_now")
    tray_exist_slots := decodeTrayBits (.str trayExistBits) 4
    version := some (normalizeStr (lookupKey metadataSource "version") "N/A") }


theorem hexChar_ne_underscore {c : Char} (h : isHexChar c = true) : c ≠ '_' := by
  intro heq
  rw [heq] at h
  exact absurd h (by decide)

theorem pyHexTail_of_all_hex : ∀ {cs : List Char}, cs.all isHexChar = true →
    pyHexTail cs = true := by
  intro cs
  induction cs with
  | nil => intro _; rfl
  | cons c rest ih =>
      intro h
      simp only [List.all_cons, Bool.and_eq_true] at h
      rw [pyHexTail.eq_def]
      simp [hexChar_ne_underscore h.1, h.1, ih h.2]

theorem filter_ne_underscore_of_all_hex {cs : List Char} (h : cs.all isHexChar = true) :
    cs.filter (fun d => d ≠ '_') = cs := by
  rw [List.filter_eq_self]
  intro c hc
  simpa using hexChar_ne_underscore (List.all_eq_true.mp h c hc)

theorem pyHexGroup_of_all_hex : ∀ {cs : List Char}, cs ≠ [] → cs.all isHexChar = true →
    pyHexGroup cs = some (cs.foldl (fun acc d => acc * 16 + hexDigitVal d) 0) := by
  intro cs hne h
  cases cs with
  | nil => exact absurd rfl hne
  | cons c rest =>
      have hall := h
      simp only [List.all_cons, Bool.and_eq_true] at h
      simp only [pyHexGroup.eq_def]
      rw [if_pos (by rw [h.1, pyHexTail_of_all_hex h.2]; rfl)]
      rw [filter_ne_underscore_of_all_hex hall]

theorem pyHexBody_of_all_hex {cs : List Char} (hne : cs ≠ []) (h : cs.all isHexChar = true) :
    pyHexBody cs = some (cs.foldl (fun acc d => acc * 16 + hexDigitVal d) 0) := by
  cases cs with
  | nil => exact absurd rfl hne
  | cons c0 rest0 =>
      cases rest0 with
      | nil =>
          simp only [pyHexBody.eq_def]
          exact pyHexGroup_of_all_hex hne h
      | cons c1 rest =>
          have h1 : isHexChar c1 = true := by
            simp only [List.all_cons, Bool.and_eq_true] at h
            exact h.2.1
          simp only [pyHexBody.eq_def]
          rw [if_neg ?hok]
          · exact pyHexGroup_of_all_hex hne h
          case hok =>
            rintro ⟨-, hx | hx⟩ <;> rw [hx] at h1 <;> exact absurd h1 (by decide)

theorem pyIntHexList_of_all_hex {cs : List Char} (hne : cs ≠ []) (h : cs.all isHexChar = true) :
    pyIntHexList cs
      = some ((cs.foldl (fun acc d => acc * 16 + hexDigitVal d) 0 : Nat) : Int) := by
  cases cs with
  | nil => exact absurd rfl hne
  | cons c rest =>
      have hc : isHexChar c = true := by
        simp only [List.all_cons, Bool.and_eq_true] at h
        exact h.1
      simp only [pyIntHexList.eq_def]
      rw [if_neg (by intro heq; rw [heq] at hc; exact absurd hc (by decide)),
        if_neg (by intro heq; rw [heq] at hc; exact absurd hc (by decide)),
        pyHexBody_of_all_hex hne h]
      rfl

/-- Modelled from the spec: the value of the hex-encoded `tray_exist_bits`
field, i.e. the whole string read as hexadecimal. -/
def specHexValue (s : String) : Option Nat :=
  if !s.toList.isEmpty && s.toList.all isHexChar then
    some (s.toList.foldl (fun acc d => acc * 16 + hexDigitVal d) 0)
  else none

/-- C6, counterexample: for the hex-encoded `tray_exist_bits` value
`"10"` (= 16, only tray 4 present), `parse_slot_int` sees no hex letter
and parses decimal 10, so the decoded slots are `[F,T,F,T]` instead of the
low four bits `[F,F,F,F]` of the hex value 16. -/
theorem tray_bits_counterexample :
    (amsParse (.obj [("tray_exist_bits", .str "10")]) none none).tray_exist_slots
      = [false, true, false, true]
    ∧ specHexValue "10" = some 16
    ∧ [pyBit 16 0, pyBit 16 1, pyBit 16 2, pyBit 16 3] = [false, false, false, false]
    ∧ ([false, true, false, true] ≠ [false, false, false, false]) := by
  refine ⟨by decide, by decide, by decide, by decide⟩

/-- C6 (amended): `total_ams` equals the number of `ams_units`; the decoded
`tray_exist_slots` are the low four bits of the value `parse_slot_int`
extracts from `tray_exist_bits` — a parse that reads the string as hex only
when it contains a hex letter `a`–`f`/`A`–`F` and as decimal otherwise, so
it agrees with the whole-string hex reading exactly on letter-containing
strings. -/
theorem ams_status_ok (d : JVal) (sw pn : Option String) :
    (amsParse d sw pn).total_ams = (amsParse d sw pn).ams_units.length
    ∧ (amsParse d sw pn).tray_exist_slots
        = decodeTrayBits (.str (amsParse d sw pn).tray_exist_bits) 4
    ∧ (∀ n : Int, parseSlotInt (some (.str (amsParse d sw pn).tray_exist_bits)) = some n →
        (amsParse d sw pn).tray_exist_slots = [pyBit n 0, pyBit n 1, pyBit n 2, pyBit n 3])
    ∧ (∀ (s : String) (n : Nat), s.toList.any isHexLetter = true → specHexValue s = some n →
        decodeTrayBits (.str s) 4 = [pyBit (n : Int) 0, pyBit (n : Int) 1,
          pyBit (n : Int) 2, pyBit (n : Int) 3]) := by
  refine ⟨rfl, rfl, ?_, ?_⟩
  · intro n h
    show decodeTrayBits (.str (amsParse d sw pn).tray_exist_bits) 4 = _
    rw [decodeTrayBits, h]
    rfl
  · intro s n hany hspec
    rw [specHexValue] at hspec
    split at hspec
    · next hcond =>
        simp only [Bool.and_eq_true, Bool.not_eq_eq_eq_not, Bool.not_true,
          List.isEmpty_eq_false] at hcond
        injection hspec with hval
        have hne : s.toList ≠ [] := hcond.1
        have hhex : s.toList.all isHexChar = true := hcond.2
        rw [decodeTrayBits]
        have hstrip : pyStrip s.toList = s.toList := pyStrip_of_all_hex hhex
        have hps : parseSlotInt (some (.str s)) = some ((n : Nat) : Int) := by
          rw [parseSlotInt]
          simp only [hstrip]
          rw [if_neg (by simpa [List.isEmpty_iff] using hne), if_pos (by simpa using hany),
            pyIntHexList_of_all_hex hne hhex, hval]
        rw [hps]
        rfl
    · exact absurd hspec (by simp)

/-- Witness for C6 at a two-unit AMS payload with `tray_exist_bits` `"f"`. -/
theorem ams_status_ok_witness :
    (amsParse (.obj [("ams", .arr [.obj [("id", .str "0")], .obj [("id", .str "1")]]),
        ("tray_exist_bits", .str "f")]) none none).total_ams = 2
    ∧ (amsParse (.obj [("ams", .arr [.obj [("id", .str "0")], .obj [("id", .str "1")]]),
        ("tray_exist_bits", .str "f")]) none none).ams_units.length = 2
    ∧ decodeTrayBits (.str "f") 4 = [pyBit 15 0, pyBit 15 1, pyBit 15 2, pyBit 15 3]
    ∧ (amsParse (.obj [("ams", .arr [.obj [("id", .str "0")], .obj [("id", .str "1")]]),
        ("tray_exist_bits", .str "f")]) none none).tray_exist_slots
      = [true, true, true, true] := by
  have h := ams_status_ok (.obj [("ams", .arr [.obj [("id", .str "0")], .obj [("id", .str "1")]]),
    ("tray_exist_bits", .str "f")]) none none
  refine ⟨?_, by decide, ?_, by decide⟩
  · rw [h.1]
    decide
  · exact h.2.2.2 "f" 15 (by decide) (by decide)

/-- `str.split` on `/` (the separator `pathlib.PurePosixPath` uses). -/
def splitSlash : List Char → List (List Char)
  | [] => [[]]
  | c :: rest =>
      match splitSlash rest with
      | [] => [[]]
      | g :: gs => if c = '/' then [] :: g :: gs else (c :: g) :: gs

/-- `Path(s).name`: the last non-empty path component. -/
def pathName (s : String) : String :=
  String.mk ((((splitSlash s.toList).filter (fun g => !g.isEmpty)).getLast?).getD [])

/-- Outcome of the `skip_objects` route: command sent with the given
targets, or a 400 with the given message. -/
inductive SkipResult where
  | sent (targets : List Int)
  | badRequest (msg : String)
deriving DecidableEq, Repr

/-- `identify_id` collection over a plate's `objects` list: keep
`obj["identify_id"]` when the object is a dict and the id an `int`
(Python `bool` included, valued 0/1). -/
def identifyIds (objects : List JVal) : List Int :=
  objects.filterMap (fun o =>
    match o with
    | .obj f =>
        match lookupKey f "identify_id" with
        | some (.num n) => some n
        | some (.bool b) => some (if b then (1 : Int) else 0)
        | _ => none
    | _ => none)

/-- `plate.get("objects") if isinstance(plate, dict) else None`. -/
def plateObjects (plate : JVal) : Option JVal :=
  match plate with
  | .obj f => lookupKey f "objects"
  | _ => none

/-- The plate-level checks of `skip_objects` (lines 257–277): object list
present and non-empty, 2 ≤ total ≤ 64, more than one object remaining,
and at least one remaining after the newly skipped targets. -/
def skipPlateChecks (plate : JVal) (skipped newTargets : List Int) : SkipResult :=
  match plateObjects plate with
  | some (.arr objs) =>
      if objs.isEmpty then .badRequest "Skip objects unavailable for this plate"
      else
        let objectIds := identifyIds objs
        let total := objectIds.length
        if total ≤ 1 then .badRequest "Skip objects requires at least two objects"
        else if total > 64 then .badRequest "Skip objects limited to 64 objects per plate"
        else
          let skippedCount := (objectIds.filter (fun i => skipped.contains i)).length
          let remaining := total - skippedCount
          if remaining ≤ 1 then .badRequest "Only one object remains; skipping is disabled"
          else if (remaining : Int) - newTargets.length < 1 then
            .badRequest "At least one object must remain after skipping"
          else .sent newTargets
  | _ => .badRequest "Skip objects unavailable for this plate"

/-- The `skip_objects` route decision (`control.py` lines 192–287), with
the cache probe, the cached-metadata lookup and `_resolve_plate`
abstracted as function parameters. -/
def skipObjectsCheck (objList skipped : List Int) (file : Option String)
    (hasCache : String → Bool) (metadata : String → Option JVal)
    (resolvePlate : JVal → Option String → Option JVal) : SkipResult :=
  if objList.isEmpty then .badRequest "obj_list must include at least one object id"
  else
    let newTargets := objList.filter (fun o => !skipped.contains o)
    if newTargets.isEmpty then .badRequest "All selected objects are already skipped"
    else
      match file with
      | none => .badRequest "Active print file is unavailable"
      | some f =>
          if f = "" then .badRequest "Active print file is unavailable"
          else
            let fileName := pathName f
            if !hasCache fileName then
              .badRequest "Print cache missing or does not match the active file"
            else
              match metadata fileName with
              | none => .sent newTargets
              | some m =>
                  if pyTruthy m then
                    match resolvePlate m file with
                    | none => .sent newTargets
                    | some plate =>
                        if pyTruthy plate then skipPlateChecks plate skipped newTargets
                        else .sent newTargets
                  else .sent newTargets

/-- C3, counterexample: the count checks run only under `if metadata:` /
`if plate:`. With the cache probe passing but the cached-metadata lookup
returning `None` (1), or with metadata whose only plate is the empty dict
(`_resolve_plate` falls back to `plates[0]`, which is falsy) (2), the
command is sent with no object-count check at all — although the plate
checks themselves would reject that empty plate (3). So the command is
not "accepted only when total ≤ 64 and at least one object remains". -/
theorem skip_objects_counterexample :
    skipObjectsCheck [1, 2] [] (some "p.gcode") (fun _ => true) (fun _ => none)
        (fun _ _ => none)
      = .sent [1, 2]
    ∧ skipObjectsCheck [1] [] (some "p.gcode") (fun _ => true)
        (fun _ => some (JVal.obj [("plates", JVal.arr [JVal.obj []])]))
        (fun _ _ => some (JVal.obj []))
      = .sent [1]
    ∧ skipPlateChecks (JVal.obj []) [] [1]
        = .badRequest "Skip objects unavailable for this plate" := by
  refine ⟨by decide, by decide, by decide⟩

/-- C3 (amended): the skip command is sent only with the cache probe
passing (1); once metadata is truthy and the plate resolves truthy, the
plate checks run (2): a 64-object plate with nothing skipped accepts any
request leaving at most 63 newly skipped targets (3), rejects one
skipping all 64 with "At least one object must remain after skipping"
(4), and a plate of 65 or more objects is rejected with "Skip objects
limited to 64 objects per plate" (5); but when the cached-metadata
lookup returns `None` the command is sent with no count check (6). -/
theorem skip_objects_ok :
    (∀ (objList skipped : List Int) (file : Option String) (hasCache : String → Bool)
        (metadata : String → Option JVal) (resolvePlate : JVal → Option String → Option JVal)
        (targets : List Int),
      skipObjectsCheck objList skipped file hasCache metadata resolvePlate = .sent targets →
      ∃ f, file = some f ∧ f ≠ "" ∧ hasCache (pathName f) = true)
    ∧ (∀ (objList skipped : List Int) (f : String) (hasCache : String → Bool)
        (metadata : String → Option JVal) (resolvePlate : JVal → Option String → Option JVal)
        (m plate : JVal),
      objList.isEmpty = false →
      (objList.filter (fun o => !skipped.contains o)).isEmpty = false →
      f ≠ "" → hasCache (pathName f) = true → metadata (pathName f) = some m →
      pyTruthy m = true → resolvePlate m (some f) = some plate → pyTruthy plate = true →
      skipObjectsCheck objList skipped (some f) hasCache metadata resolvePlate
        = skipPlateChecks plate skipped (objList.filter (fun o => !skipped.contains o)))
    ∧ (∀ (plate : JVal) (skipped newTargets : List Int) (objs : List JVal),
      plateObjects plate = some (.arr objs) → objs.isEmpty = false →
      (identifyIds objs).length = 64 →
      ((identifyIds objs).filter (fun i => skipped.contains i)).length = 0 →
      newTargets.length ≤ 63 →
      skipPlateChecks plate skipped newTargets = .sent newTargets)
    ∧ (∀ (plate : JVal) (skipped newTargets : List Int) (objs : List JVal),
      plateObjects plate = some (.arr objs) → objs.isEmpty = false →
      (identifyIds objs).length = 64 →
      ((identifyIds objs).filter (fun i => skipped.contains i)).length = 0 →
      newTargets.length = 64 →
      skipPlateChecks plate skipped newTargets
        = .badRequest "At least one object must remain after skipping")
    ∧ (∀ (plate : JVal) (skipped newTargets : List Int) (objs : List JVal),
      plateObjects plate = some (.arr objs) →
      (identifyIds objs).length ≥ 65 →
      skipPlateChecks plate skipped newTargets
        = .badRequest "Skip objects limited to 64 objects per plate")
    ∧ (∀ (objList skipped : List Int) (f : String) (hasCache : String → Bool)
        (resolvePlate : JVal → Option String → Option JVal),
      objList.isEmpty = false →
      (objList.filter (fun o => !skipped.contains o)).isEmpty = false →
      f ≠ "" → hasCache (pathName f) = true →
      skipObjectsCheck objList skipped (some f) hasCache (fun _ => none) resolvePlate
        = .sent (objList.filter (fun o => !skipped.contains o))) := by
  refine ⟨?_, ?_, ?_, ?_, ?_, ?_⟩
  · intro objList skipped file hasCache metadata resolvePlate targets h
    simp only [skipObjectsCheck] at h
    split at h
    · exact absurd h (by simp)
    · split at h
      · exact absurd h (by simp)
      · split at h
        · exact absurd h (by simp)
        · next f =>
            split at h
            · exact absurd h (by simp)
            · next hne =>
                split at h
                · exact absurd h (by simp)
                · next hcache => exact ⟨f, rfl, hne, by simpa using hcache⟩
  · intro objList skipped f hasCache metadata resolvePlate m plate h1 h2 h3 h4 h5 h6 h7 h8
    simp only [skipObjectsCheck, h1, h2, h3, h4, h5, h6, h7, h8, Bool.not_true,
      Bool.false_eq_true, if_false, ite_false, ite_true]
  · intro plate skipped newTargets objs hobj hne hids hskip hlen
    simp only [skipPlateChecks, hobj, hne, hids, hskip, Bool.false_eq_true, if_false]
    norm_num
    intro hcond
    exact absurd hcond (by omega)
  · intro plate skipped newTargets objs hobj hne hids hskip hlen
    simp only [skipPlateChecks, hobj, hne, hids, hskip, Bool.false_eq_true, if_false]
    norm_num
    intro hcond
    exact absurd hcond (by omega)
  · intro plate skipped newTargets objs hobj hids
    have hne : objs.isEmpty = false := by
      cases objs with
      | nil => simp [identifyIds] at hids
      | cons a l => rfl
    simp only [skipPlateChecks, hobj, hne, Bool.false_eq_true, if_false]
    split
    · next hc => exact absurd hc (by omega)
    · split
      · rfl
      · next hc _ => exact (hc (by omega)).elim
  · intro objList skipped f hasCache resolvePlate h1 h2 h3 h4
    simp only [skipObjectsCheck, h1, h2, h3, h4, Bool.not_true, Bool.false_eq_true,
      if_false, ite_false, ite_true]

def plate64W : JVal :=
  .obj [("objects", .arr ((List.range 64).map (fun i => .obj [("identify_id", .num (i : Int))])))]

def plate65W : JVal :=
  .obj [("objects", .arr ((List.range 65).map (fun i => .obj [("identify_id", .num (i : Int))])))]

def ids63W : List Int := (List.range 63).map (fun i => (i : Int))

def ids64W : List Int := (List.range 64).map (fun i => (i : Int))

/-- Witness for C3: a 64-object plate accepts 63 skip targets, rejects 64,
and a 65-object plate is rejected with the per-plate limit message. -/
theorem skip_objects_ok_witness :
    (∃ f, (some "p.gcode" : Option String) = some f ∧ f ≠ ""
      ∧ (fun (_ : String) => true) (pathName f) = true)
    ∧ skipPlateChecks plate64W [] ids63W = .sent ids63W
    ∧ skipPlateChecks plate64W [] ids64W
        = .badRequest "At least one object must remain after skipping"
    ∧ skipPlateChecks plate65W [] [1] = .badRequest "Skip objects limited to 64 objects per plate"
    ∧ skipObjectsCheck [1] [] (some "p.gcode") (fun _ => true)
        (fun _ => some (JVal.obj [("plates", JVal.arr [plate64W])])) (fun _ _ => some plate64W)
        = skipPlateChecks plate64W [] ([1].filter (fun o => !([] : List Int).contains o))
    ∧ skipObjectsCheck [3] [] (some "q.gcode") (fun _ => true) (fun _ => none)
        (fun _ _ => none)
        = .sent ([3].filter (fun o => !([] : List Int).contains o)) := by
  refine ⟨?_, ?_, ?_, ?_, ?_, ?_⟩
  · exact skip_objects_ok.1 [1] [] (some "p.gcode") (fun _ => true) (fun _ => none)
      (fun _ _ => none) [1] (by decide)
  · exact skip_objects_ok.2.2.1 plate64W [] ids63W
      ((List.range 64).map (fun i => .obj [("identify_id", .num (i : Int))]))
      (by decide) (by decide) (by decide) (by decide) (by decide)
  · exact skip_objects_ok.2.2.2.1 plate64W [] ids64W
      ((List.range 64).map (fun i => .obj [("identify_id", .num (i : Int))]))
      (by decide) (by decide) (by decide) (by decide) (by decide)
  · exact skip_objects_ok.2.2.2.2.1 plate65W [] [1]
      ((List.range 65).map (fun i => .obj [("identify_id", .num (i : Int))]))
      (by decide) (by decide)
  · exact skip_objects_ok.2.1 [1] [] "p.gcode" (fun _ => true)
      (fun _ => some (JVal.obj [("plates", JVal.arr [plate64W])])) (fun _ _ => some plate64W)
      (JVal.obj [("plates", JVal.arr [plate64W])]) plate64W
      (by decide) (by decide) (by decide) (by decide) rfl (by decide) rfl (by decide)
  · exact skip_objects_ok.2.2.2.2.2 [3] [] "q.gcode" (fun _ => true)
      (fun _ _ => none) (by decide) (by decide) (by decide) (by decide)

/-- Dotted change path: `key` when the running path is empty, else
`path.key`. -/
def pathJoin (pre key : String) : String :=
  if pre = "" then key else pre ++ "." ++ key

/-- Second loop of `_diff_dict`: keys of `previous` missing from
`current` are reported as `None` at their dotted path. -/
def diffDel (current : JFields) (pre : String) : JFields → JFields
  | [] => []
  | (k, _) :: rest =>
      if (lookupKey current k).isSome then diffDel current pre rest
      else (pathJoin pre k, .null) :: diffDel current pre rest

/-- First loop of `_diff_dict` over the entries of `current`: new keys are
emitted, dict-vs-dict values recurse into both loops at the extended
path, other values are emitted when they differ under `!=`. -/
def diffAdd (previous : JFields) (pre : String) : JFields → JFields
  | [] => []
  | (k, v) :: rest =>
      (match lookupKey previous k with
        | none => [(pathJoin pre k, v)]
        | some old =>
            match v, old with
            | .obj cf, .obj pf => diffAdd pf (pathJoin pre k) cf ++ diffDel cf (pathJoin pre k) pf
            | _, _ => if pyEq v old then [] else [(pathJoin pre k, v)])
      ++ diffAdd previous pre rest
termination_by l => sizeOf l
decreasing_by
  · simp_arith
  · simp_arith

/-- `_diff_dict previous current pre out`: the change map it appends to
`out`, in emission order. -/
def diffDict (previous current : JFields) (pre : String) : JFields :=
  diffAdd previous pre current ++ diffDel current pre previous

/-- In a well-formed field list, lookup of a member key returns the
member's value. -/
theorem lookupKey_of_mem_wf : ∀ {l : JFields} {k : String} {v : JVal},
    fieldsWf l = true → (k, v) ∈ l → lookupKey l k = some v := by
  intro l
  induction l with
  | nil => intro k v _ h; simp at h
  | cons p rest ih =>
      intro k v hwf h
      obtain ⟨k0, v0⟩ := p
      obtain ⟨hall, _, hrest⟩ := fieldsWf_cons hwf
      rcases List.mem_cons.mp h with h0 | h0
      · cases h0
        simp [lookupKey]
      · rw [lookupKey]
        have hk : k0 ≠ k := by
          intro heq
          have hne := List.all_eq_true.mp hall (k, v) h0
          simp [heq] at hne
        rw [if_neg hk]
        exact ih hrest h0

theorem diffDel_self (cur : JFields) (pre : String) :
    ∀ (l : JFields), (∀ k v, (k, v) ∈ l → (lookupKey cur k).isSome) →
    diffDel cur pre l = [] := by
  intro l
  induction l with
  | nil => intro _; rfl
  | cons p rest ih =>
      intro h
      obtain ⟨k, v⟩ := p
      rw [diffDel, if_pos (h k v (List.mem_cons_self _ _))]
      exact ih (fun k' v' h' => h k' v' (List.mem_cons_of_mem _ h'))

theorem diffAdd_self : ∀ (l previous : JFields) (pre : String),
    fieldsWf previous = true →
    (∀ k v, (k, v) ∈ l → lookupKey previous k = some v) →
    diffAdd previous pre l = []
  | [], _, _, _, _ => by rw [diffAdd]
  | (k, v) :: rest, previous, pre, hwf, hmem => by
      have hlook : lookupKey previous k = some v := hmem k v (List.mem_cons_self _ _)
      have htail : diffAdd previous pre rest = [] :=
        diffAdd_self rest previous pre hwf
          (fun k' v' h' => hmem k' v' (List.mem_cons_of_mem _ h'))
      rw [diffAdd, hlook]
      cases v with
      | obj cf =>
          have hcf : fieldsWf cf = true := by
            have hv := fieldsWf_lookup hwf hlook
            rwa [JVal.wf] at hv
          have h1 : diffAdd cf (pathJoin pre k) cf = [] :=
            diffAdd_self cf cf (pathJoin pre k) hcf
              (fun k' v' h' => lookupKey_of_mem_wf hcf h')
          have h2 : diffDel cf (pathJoin pre k) cf = [] :=
            diffDel_self cf (pathJoin pre k) cf
              (fun k' v' h' => lookupKey_isSome_of_mem h')
          simp [htail, h1, h2]
      | null => simp [htail, pyEq_refl]
      | bool b => simp [htail, pyEq_refl]
      | num n => simp [htail, pyEq_refl]
      | str s => simp [htail, pyEq_refl]
      | arr xs => simp [htail, pyEq_refl]
termination_by l => sizeOf l
decreasing_by
  · simp_arith
  · rename_i hveq
    subst hveq
    simp_arith

/-- Diff of a well-formed dict against itself is empty. -/
theorem diffDict_self {d : JFields} (hwf : fieldsWf d = true) (pre : String) :
    diffDict d d pre = [] := by
  rw [diffDict,
    diffAdd_self d d pre hwf (fun k v h => lookupKey_of_mem_wf hwf h),
    diffDel_self d pre d (fun k v h => lookupKey_isSome_of_mem h)]
  rfl

/-- Per-printer state of `StateStreamService`: the `_versions` and
`_snapshots` dicts (`dict.get` defaults modelled by total functions). -/
structure StreamState where
  versions : String → Nat
  snapshots : String → Option JFields

def setVersion (f : String → Nat) (pid : String) (v : Nat) : String → Nat :=
  fun q => if q = pid then v else f q

def setSnapshot (f : String → Option JFields) (pid : String) (d : JFields) :
    String → Option JFields :=
  fun q => if q = pid then some d else f q

/-- The two entry points that touch versions: `build_snapshot` and a state
update handled by `_build_diff_payload` (serialization abstracted: the
operation carries the serialized dict). -/
inductive StreamOp where
  | buildSnapshot (pid : String) (stateDict : JFields)
  | stateUpdate (pid : String) (stateDict : JFields)

/-- One operation: the next state, and the emitted event's printer id and
version id if an event is emitted. -/
def applyOp (s : StreamState) : StreamOp → StreamState × Option (String × Nat)
  | .buildSnapshot pid d =>
      let version := s.versions pid + 1
      (⟨setVersion s.versions pid version, setSnapshot s.snapshots pid d⟩, some (pid, version))
  | .stateUpdate pid d =>
      match s.snapshots pid with
      | none =>
          let version := s.versions pid + 1
          (⟨setVersion s.versions pid version, setSnapshot s.snapshots pid d⟩, some (pid, version))
      | some previous =>
          if (diffDict previous d "").isEmpty then (s, none)
          else
            let version := s.versions pid + 1
            (⟨setVersion s.versions pid version, setSnapshot s.snapshots pid d⟩, some (pid, version))

/-- A sequence of operations: final state and emitted events in order. -/
def runOps (s : StreamState) : List StreamOp → StreamState × List (String × Nat)
  | [] => (s, [])
  | op :: rest =>
      let r1 := applyOp s op
      let r2 := runOps r1.1 rest
      (r2.1, (match r1.2 with | some e => [e] | none => []) ++ r2.2)

/-- Version ids of the events emitted for one printer. -/
def eventsFor (pid : String) (evs : List (String × Nat)) : List Nat :=
  (evs.filter (fun e => e.1 = pid)).map (fun e => e.2)

theorem applyOp_spec (s : StreamState) (op : StreamOp) :
    ((applyOp s op).2 = none ∧ (applyOp s op).1 = s)
    ∨ (∃ p, (applyOp s op).2 = some (p, s.versions p + 1)
        ∧ (applyOp s op).1.versions = setVersion s.versions p (s.versions p + 1)) := by
  cases op with
  | buildSnapshot p d => exact Or.inr ⟨p, rfl, rfl⟩
  | stateUpdate p d =>
      rw [applyOp]
      split
      · exact Or.inr ⟨p, rfl, rfl⟩
      · split
        · exact Or.inl ⟨rfl, rfl⟩
        · exact Or.inr ⟨p, rfl, rfl⟩

theorem runOps_chain : ∀ (ops : List StreamOp) (s : StreamState) (pid : String),
    List.Chain' (· < ·) (s.versions pid :: eventsFor pid (runOps s ops).2)
    ∧ s.versions pid ≤ (runOps s ops).1.versions pid
  | [], s, pid => by
      constructor
      · simp [runOps, eventsFor]
      · simp [runOps]
  | op :: rest, s, pid => by
      obtain ⟨ih1, ih2⟩ := runOps_chain rest (applyOp s op).1 pid
      simp only [runOps]
      rcases applyOp_spec s op with ⟨hev, hst⟩ | ⟨p, hev, hver⟩
      · constructor
        · simpa [eventsFor, hev, hst] using ih1
        · simpa [hst] using ih2
      · by_cases hp : p = pid
        · subst hp
          have hv1 : (applyOp s op).1.versions p = s.versions p + 1 := by
            rw [hver]
            simp [setVersion]
          rw [hv1] at ih1 ih2
          constructor
          · have hchain : List.Chain' (· < ·)
                (s.versions p :: (s.versions p + 1) :: eventsFor p (runOps (applyOp s op).1 rest).2) :=
              List.chain'_cons.mpr ⟨Nat.lt_succ_self _, ih1⟩
            simpa [eventsFor, hev] using hchain
          · exact le_trans (Nat.le_succ _) ih2
        · have hv2 : (applyOp s op).1.versions pid = s.versions pid := by
            rw [hver, setVersion]
            simp [Ne.symm hp]
          rw [hv2] at ih1 ih2
          constructor
          · simpa [eventsFor, hev, hp] using ih1
          · simpa using ih2

/-- C4: across any operation sequence, the version ids of the events the
stream service emits for one printer are strictly increasing, and a state
update identical to the cached snapshot emits no event and leaves the
state (versions included) unchanged. -/
theorem stream_versions_ok :
    (∀ (ops : List StreamOp) (s0 : StreamState) (pid : String),
      List.Pairwise (· < ·) (eventsFor pid (runOps s0 ops).2))
    ∧ (∀ (s : StreamState) (pid : String) (d : JFields),
      s.snapshots pid = some d → fieldsWf d = true →
      applyOp s (.stateUpdate pid d) = (s, none)) := by
  constructor
  · intro ops s0 pid
    have h := (runOps_chain ops s0 pid).1
    exact List.chain'_iff_pairwise.mp h.tail
  · intro s pid d hsnap hwf
    simp only [applyOp, hsnap]
    rw [diffDict_self hwf]
    simp

/-- Witness for C4: a snapshot followed by a changed and an unchanged
update emits versions [1, 2]; an update equal to the cached snapshot is a
no-op. -/
theorem stream_versions_ok_witness :
    List.Pairwise (· < ·) (eventsFor "p1" (runOps ⟨fun _ => 0, fun _ => none⟩
      [.buildSnapshot "p1" [("a", .num 1)], .stateUpdate "p1" [("a", .num 2)],
        .stateUpdate "p1" [("a", .num 2)]]).2)
    ∧ (⟨fun _ => 0, fun q => if q = "p1" then some [("a", .num 1)] else none⟩ :
        StreamState).snapshots "p1" = some [("a", .num 1)]
    ∧ fieldsWf [("a", .num 1)] = true
    ∧ applyOp ⟨fun _ => 0, fun q => if q = "p1" then some [("a", .num 1)] else none⟩
        (.stateUpdate "p1" [("a", .num 1)])
      = (⟨fun _ => 0, fun q => if q = "p1" then some [("a", .num 1)] else none⟩, none) := by
  refine ⟨stream_versions_ok.1 _ _ _, rfl, ?_, ?_⟩
  · simp [fieldsWf, JVal.wf]
  · exact stream_versions_ok.2
      ⟨fun _ => 0, fun q => if q = "p1" then some [("a", .num 1)] else none⟩ "p1"
      [("a", .num 1)] rfl (by simp [fieldsWf, JVal.wf])

/-- Per-printer store of the orchestrator: raw merged `master_data`, the
`printer_online` flag, and the assembled `ams` status. -/
structure OrchestratorState where
  master : JFields
  printer_online : Bool
  ams : AmsStatusM
deriving Repr

/-- AMS portion of `StateAssembler.assemble`: pick
`master.get("ams") or print_section.get("ams")` and reparse when truthy,
else keep the current status (capability decoration keeps the unit list
and counts unchanged, so it is not modelled). -/
def assembleAms (master : JFields) (current : AmsStatusM) : AmsStatusM :=
  let printSection : JVal :=
    match lookupKey master "print" with
    | some v => v
    | none => .obj master
  let amsSection0 : Option JVal := lookupKey master "ams"
  let amsSection : Option JVal :=
    if !optTruthy amsSection0 then
      match printSection with
      | .obj pf => lookupKey pf "ams"
      | _ => amsSection0
    else amsSection0
  match amsSection with
  | some a => if pyTruthy a then amsParse a none none else current
  | none => current

/-- The orchestrator operations that touch `printer_online` or `ams`. -/
inductive OrchOp where
  | setPrinterOnline (online : Bool)
  | updatePrintData (payload : JFields)

/-- One orchestrator call: `set_printer_online` flips the flag and resets
`ams` on `false`; `update_print_data` merges the payload into the master
and re-assembles `ams` from the merged master. -/
def applyOrch (s : OrchestratorState) : OrchOp → OrchestratorState
  | .setPrinterOnline online =>
      { s with printer_online := online, ams := if online then s.ams else {} }
  | .updatePrintData payload =>
      let master := deepMerge s.master payload
      { s with master := master, ams := assembleAms master s.ams }

/-- A sequence of orchestrator calls. -/
def runOrch (s : OrchestratorState) : List OrchOp → OrchestratorState
  | [] => s
  | op :: rest => runOrch (applyOrch s op) rest

/-- Fresh repository store: empty master, offline, empty `AmsStatus`. -/
def initOrch : OrchestratorState := ⟨[], false, {}⟩

/-- A payload carrying one AMS unit. -/
def amsPayloadW : JFields := [("ams", .obj [("ams", .arr [.obj [("id", .str "0")]])])]

theorem runOrch_append (s : OrchestratorState) (ops : List OrchOp) (op : OrchOp) :
    runOrch s (ops ++ [op]) = applyOrch (runOrch s ops) op := by
  induction ops generalizing s with
  | nil => rfl
  | cons o rest ih =>
      rw [List.cons_append, runOrch, runOrch]
      exact ih _

/-- C8, counterexample: set the printer offline, then feed one print
payload carrying AMS data: the reachable state is offline yet its
assembled `ams.total_ams` is 1 — `update_print_data` re-assembles `ams`
from the merged master with no `printer_online` guard. -/
theorem offline_ams_counterexample :
    (runOrch initOrch [.setPrinterOnline false,
      .updatePrintData amsPayloadW]).printer_online = false
    ∧ (runOrch initOrch [.setPrinterOnline false,
      .updatePrintData amsPayloadW]).ams.total_ams = 1 := by
  have h3 : deepMerge ([] : JFields) amsPayloadW = amsPayloadW := by
    simp [amsPayloadW, deepMerge_cons, deepMerge_nil, mergeStep.eq_def, lookupKey, setKey,
      isSentinel]
  constructor
  · rfl
  · show (assembleAms (deepMerge ([] : JFields) amsPayloadW) ({} : AmsStatusM)).total_ams = 1
    rw [h3]
    decide

/-- C8 (amended): any call sequence ending in `set_printer_online(false)`
leaves an offline state whose `ams` is the empty `AmsStatus` with
`total_ams = 0`; but `update_print_data` keeps the flag and re-assembles
`ams` from the merged master unconditionally, so later updates can
repopulate it while the printer stays offline. -/
theorem offline_ams_amended :
    (∀ (s0 : OrchestratorState) (ops : List OrchOp),
      (runOrch s0 (ops ++ [.setPrinterOnline false])).printer_online = false
      ∧ (runOrch s0 (ops ++ [.setPrinterOnline false])).ams = {}
      ∧ (runOrch s0 (ops ++ [.setPrinterOnline false])).ams.total_ams = 0)
    ∧ (∀ (s : OrchestratorState) (payload : JFields),
      (applyOrch s (.updatePrintData payload)).printer_online = s.printer_online
      ∧ (applyOrch s (.updatePrintData payload)).ams
        = assembleAms (deepMerge s.master payload) s.ams) := by
  constructor
  · intro s0 ops
    rw [runOrch_append]
    exact ⟨rfl, rfl, rfl⟩
  · intro s payload
    exact ⟨rfl, rfl⟩

/-- Witness for C8 at a concrete trace ending in an offline transition. -/
theorem offline_ams_amended_witness :
    (runOrch initOrch ([.updatePrintData amsPayloadW] ++ [.setPrinterOnline false])).ams.total_ams
      = 0
    ∧ (runOrch initOrch ([.updatePrintData amsPayloadW]
        ++ [.setPrinterOnline false])).printer_online = false := by
  exact ⟨(offline_ams_amended.1 initOrch [.updatePrintData amsPayloadW]).2.2,
    (offline_ams_amended.1 initOrch [.updatePrintData amsPayloadW]).1⟩

end BambuMonitor
